import Mathlib

/-!
Verification of the reconciliation logic of the fantasy-baseball draft
board (`script.js`): identifier validity classification, bulk remote
merge, real-time event application, local mutation operations, rankings
reordering, outbound backup normalization, and the associated invariants.

Strings are modelled by Lean `String`; operations that the source
performs on the character sequence of a string (`length`, `includes`,
the `/^[a-zA-Z]+$/` regex) are expressed on `s.data`, the underlying
character list.  JavaScript objects holding player rows are modelled by
explicit structures; a field that may be absent (`draftedDate`, and the
nullable columns of remote rows) is an `Option`, with `none` for
"absent/null".  `Object.assign` / object spread are modelled by structure
update that overwrites exactly the keys present on the source object.
-/

namespace DraftBoard

/-- The identifier validity test used verbatim at four places in the
source (`mergeSupabaseData`, `backupToSupabase`,
`ensureAllPlayersHaveUUIDs`, `loadFromSupabase`):
`!id || id.length < 20 || !id.includes('-') || id.match(/^[a-zA-Z]+$/)`.
The regex `/^[a-zA-Z]+$/` matches exactly the non-empty all-ASCII-letter
strings. -/
def isInvalidId (s : String) : Bool :=
  s.data.isEmpty || s.data.length < 20 || !(s.data.contains '-') ||
    (!s.data.isEmpty && s.data.all (fun c => c.isAlpha))

/-- A lowercase hexadecimal digit, the alphabet of `crypto.randomUUID()`
output besides the hyphens. -/
def isHexChar (c : Char) : Bool :=
  c.isDigit || (('a' ≤ c) && (c ≤ 'f'))

/-- The canonical 36-character hyphenated identifier form produced by
`crypto.randomUUID()`: hyphens at positions 8, 13, 18, 23 and lowercase
hex digits elsewhere. -/
def isCanonicalUUID (s : String) : Bool :=
  s.data.length == 36 &&
    (List.range 36).all (fun i =>
      if i == 8 || i == 13 || i == 18 || i == 23 then
        s.data.getD i ' ' == '-'
      else
        isHexChar (s.data.getD i ' '))

/-- A local player record.  `draftedDate` is `none` when the key is
absent (the create-side shape, and after `undraftPlayer`'s `delete`).
A player object pushed from a converted remote record carries no
`starred`/`headshotUrl`/`draftedDate` keys; reads of those keys behave
as `false`/`''`/absent, which is how such a record is embedded. -/
structure Player where
  id : String
  name : String
  position : String
  mlbTeam : String
  notes : String
  fantasyOwner : String
  drafted : Bool
  draftNotes : String
  addedDate : String
  draftedDate : Option String
  starred : Bool
  headshotUrl : String
  deriving DecidableEq, Repr

/-- A remote player record after conversion to local field names (the
object literal built in `loadFromSupabase`, `handleRealtimeInsert` and
`handleRealtimeUpdate`): exactly the nine keys `id`, `name`, `position`,
`mlbTeam`, `notes`, `fantasyOwner`, `drafted`, `draftNotes`,
`addedDate`. -/
structure RPlayer where
  id : String
  name : String
  position : String
  mlbTeam : String
  notes : String
  fantasyOwner : String
  drafted : Bool
  draftNotes : String
  addedDate : String
  deriving DecidableEq, Repr

/-- A raw remote row as delivered by the backend (`players` table /
real-time payload): nullable columns are `Option`. -/
structure RawRow where
  id : String
  name : Option String
  position : Option String
  team : Option String
  notes : Option String
  owner_id : Option String
  drafted : Option Bool
  draft_notes : Option String
  created_at : Option String
  deriving DecidableEq, Repr

/-- JavaScript `x || dflt` on a nullable string: `null`/`undefined` and
the empty string both fall through to the default. -/
def jsOrStr (o : Option String) (dflt : String) : String :=
  match o with
  | some s => if s = "" then dflt else s
  | none => dflt

/-- Conversion of a raw remote row to local field names, as written in
`loadFromSupabase` / the real-time handlers; `now` is the
`new Date().toISOString()` fallback for `created_at`. -/
def convertRow (row : RawRow) (now : String) : RPlayer :=
  { id := row.id
    name := jsOrStr row.name ""
    position := jsOrStr row.position ""
    mlbTeam := jsOrStr row.team ""
    notes := jsOrStr row.notes ""
    fantasyOwner := jsOrStr row.owner_id ""
    drafted := row.drafted.getD false
    draftNotes := jsOrStr row.draft_notes ""
    addedDate := jsOrStr row.created_at now }

/-- Model of `Object.assign(existingPlayer, supabasePlayer)`: every key of the
converted remote record overwrites the local record; keys absent from
the remote record (`draftedDate`, `starred`, `headshotUrl`) keep their
local values. -/
def assignFields (p : Player) (r : RPlayer) : Player :=
  { p with
    id := r.id, name := r.name, position := r.position,
    mlbTeam := r.mlbTeam, notes := r.notes,
    fantasyOwner := r.fantasyOwner, drafted := r.drafted,
    draftNotes := r.draftNotes, addedDate := r.addedDate }

/-- The update branch of `mergeSupabaseData`: copy all remote fields,
then reapply the draft-precedence rule — if the record was drafted
locally and the incoming record reports not drafted, restore the saved
local draft flag, owner, draft notes and draft date. -/
def mergeInto (p : Player) (r : RPlayer) : Player :=
  let assigned := assignFields p r
  if p.drafted && (!r.drafted || r.drafted == false) then
    { assigned with
      drafted := true, fantasyOwner := p.fantasyOwner,
      draftNotes := p.draftNotes, draftedDate := p.draftedDate }
  else
    assigned

/-- A converted remote record pushed as a new local player
(`this.players.push(supabasePlayer)`); the pushed object has no
`draftedDate`, `starred` or `headshotUrl` keys. -/
def toPlayer (r : RPlayer) : Player :=
  { id := r.id, name := r.name, position := r.position,
    mlbTeam := r.mlbTeam, notes := r.notes,
    fantasyOwner := r.fantasyOwner, drafted := r.drafted,
    draftNotes := r.draftNotes, addedDate := r.addedDate,
    draftedDate := none, starred := false, headshotUrl := "" }

/-- Index of the last occurrence of `x` in `ids`, `none` when absent:
the entry `existingPlayerMap.get(x)` refers to, since `Map.set` lets a
later entry with the same key overwrite an earlier one. -/
def lastIdxOf : List String → String → Option Nat
  | [], _ => none
  | y :: rest, x =>
    match lastIdxOf rest x with
    | some j => some (j + 1)
    | none => if y = x then some 0 else none

/-- One iteration of the `supabasePlayers.forEach` loop of
`mergeSupabaseData`: skip records with invalid identifiers, update the
mapped existing player in place, or push a new player.  `origIds` is the
identifier list of the players the `existingPlayerMap` was built from
(the collection at entry to the merge). -/
def mergeStep (origIds : List String) (ps : List Player) (r : RPlayer) : List Player :=
  if isInvalidId r.id then ps
  else
    match lastIdxOf origIds r.id with
    | some j =>
      match ps[j]? with
      | some p => ps.set j (mergeInto p r)
      | none => ps
    | none => ps ++ [toPlayer r]

/-- Model of `mergeSupabaseData(supabasePlayers)`: fold the merge step over the
remote snapshot; the id→player map is built once, from the collection at
entry. -/
def mergeSupabaseData (ps : List Player) (s : List RPlayer) : List Player :=
  s.foldl (mergeStep (ps.map (·.id))) ps

/-- C5: the classifier accepts exactly the non-empty strings of length
at least 20 that contain a hyphen and are not purely alphabetic; in
particular every canonical 36-character hyphenated form is accepted.
The counting is over the string's character sequence, matching the
JavaScript `length`/`includes`/regex operations. -/
theorem invalid_eq_false_iff (s : String) : isInvalidId s = false ↔
    (s.data ≠ [] ∧ 20 ≤ s.data.length ∧ s.data.contains '-' = true ∧
      ¬(s.data ≠ [] ∧ s.data.all (fun c => c.isAlpha) = true)) := by
  unfold isInvalidId
  cases he : s.data.isEmpty with
  | true =>
    have : s.data = [] := by simpa [List.isEmpty_iff] using he
    simp [this]
  | false =>
    have hne : s.data ≠ [] := by
      intro h; rw [h] at he; simp at he
    cases hc : s.data.contains '-' with
    | true =>
      cases ha : s.data.all (fun c => c.isAlpha) with
      | true =>
        simp [hne, hc, ha]
      | false =>
        by_cases hl : s.data.length < 20
        · simp [hne, hc, ha, hl]
        · simp [hne, hc, ha, hl]
    | false =>
      simp [hne, hc]

theorem canonicalUUID_valid (s : String) (h : isCanonicalUUID s = true) :
    isInvalidId s = false := by
  unfold isCanonicalUUID at h
  simp only [Bool.and_eq_true, beq_iff_eq, List.all_eq_true] at h
  obtain ⟨hlen, hall⟩ := h
  have h8 : s.data.getD 8 ' ' = '-' := by
    have := hall 8 (by simp [List.mem_range])
    simpa using this
  have hmem : '-' ∈ s.data := by
    have hlt : 8 < s.data.length := by omega
    have := List.getD_eq_getElem s.data ' ' hlt
    rw [this] at h8
    rw [← h8]
    exact List.getElem_mem hlt
  refine (invalid_eq_false_iff s).mpr
    ⟨?_, by omega, by simpa [List.contains] using hmem, ?_⟩
  · intro hnil; rw [hnil] at hlen; simp at hlen
  · rintro ⟨-, hall2⟩
    rw [List.all_eq_true] at hall2
    have := hall2 '-' hmem
    simp [Char.isAlpha, Char.isUpper, Char.isLower] at this

theorem id_classifier_spec :
    (∀ s : String, isInvalidId s = false ↔
      (s.data ≠ [] ∧ 20 ≤ s.data.length ∧ s.data.contains '-' = true ∧
        ¬(s.data ≠ [] ∧ s.data.all (fun c => c.isAlpha) = true))) ∧
    (∀ s : String, isCanonicalUUID s = true → isInvalidId s = false) :=
  ⟨invalid_eq_false_iff, canonicalUUID_valid⟩

/-- Witness for C5 at the identifier form `crypto.randomUUID()`
produces. -/
theorem id_classifier_spec_witness :
    isCanonicalUUID "8f14e45f-ceea-467f-a1d4-91b862439e0a" = true ∧
    isInvalidId "8f14e45f-ceea-467f-a1d4-91b862439e0a" = false := by
  refine ⟨by decide, id_classifier_spec.2 _ (by decide)⟩

/-! ## Local mutation operations -/

/-- JavaScript `String.prototype.trim()` on the character sequence:
strip leading and trailing whitespace. -/
def jsTrim (s : String) : String :=
  ⟨(((s.data.dropWhile Char.isWhitespace).reverse.dropWhile
      Char.isWhitespace).reverse)⟩

/-- Model of `addPlayer(playerData)`: append a freshly-identified, undrafted,
unstarred player.  `uuid` stands for the `crypto.randomUUID()` result
and `now` for `new Date().toISOString()`; the free-text attributes are
the trimmed form inputs. -/
def addPlayer (ps : List Player) (name position mlbTeam notes headshotUrl : String)
    (uuid now : String) : List Player :=
  ps ++ [{ id := uuid, name := jsTrim name, position := jsTrim position,
           mlbTeam := jsTrim mlbTeam, notes := jsTrim notes,
           headshotUrl := jsTrim headshotUrl, fantasyOwner := "",
           drafted := false, draftNotes := "", starred := false,
           addedDate := now, draftedDate := none }]

/-- Model of `draftPlayer(playerId, ownerData)`: mark the first player with the
given identifier drafted, recording the trimmed owner, the trimmed
notes, and the draft date; no-op when the player is absent.  The
returned flag records whether `saveToStorage` ran. -/
def draftPlayer (ps : List Player) (pid owner notes now : String) :
    List Player × Bool :=
  match ps.findIdx? (fun p => p.id = pid) with
  | some i =>
    match ps[i]? with
    | some p =>
      (ps.set i { p with drafted := true, fantasyOwner := jsTrim owner,
                         draftNotes := jsTrim notes, draftedDate := some now },
        true)
    | none => (ps, false)
  | none => (ps, false)

/-- Model of `handleDraftPlayer(e)`: validate that the owner input is non-empty
after trimming (`!ownerData.owner || !ownerData.owner.trim()`), then
delegate to `draftPlayer`; on validation failure nothing changes and
nothing is persisted. -/
def handleDraftPlayer (ps : List Player) (pid owner notes now : String) :
    List Player × Bool :=
  if owner = "" || jsTrim owner = "" then (ps, false)
  else draftPlayer ps pid owner notes now

/-- Model of `undraftPlayer(playerId)`: clear the draft flag, owner and notes and
delete the `draftedDate` key of the first player with the given
identifier; no-op when absent. -/
def undraftPlayer (ps : List Player) (pid : String) : List Player × Bool :=
  match ps.findIdx? (fun p => p.id = pid) with
  | some i =>
    match ps[i]? with
    | some p =>
      (ps.set i { p with drafted := false, fantasyOwner := "",
                         draftNotes := "", draftedDate := none },
        true)
    | none => (ps, false)
  | none => (ps, false)

/-- The local part of `deletePlayer(playerId)`: if the player exists,
remove every entry with that identifier (`filter(p => p.id !== playerId)`)
and persist — this happens *before* the remote delete request, and the
remote outcome `remote` does not influence the local state (a failure is
only logged). -/
def deletePlayer (ps : List Player) (pid : String)
    (remote : Except Unit Unit) : List Player :=
  match ps.find? (fun p => p.id = pid) with
  | none => ps
  | some _ =>
    match remote with
    | .ok _ => ps.filter (fun p => p.id ≠ pid)
    | .error _ => ps.filter (fun p => p.id ≠ pid)

/-! ## Real-time event application -/

/-- Model of `handleRealtimeInsert(newPlayer)`: convert and append if no local
player shares the identifier, otherwise ignore. -/
def handleRealtimeInsert (ps : List Player) (row : RawRow) (now : String) :
    List Player :=
  let u := convertRow row now
  match ps.findIdx? (fun p => p.id = u.id) with
  | some _ => ps
  | none => ps ++ [toPlayer u]

/-- Field-by-field shallow-equality diff of `handleRealtimeUpdate`: the
negation of `hasChanges`, comparing every key of the converted record
against the current local record. -/
def fieldsEq (p : Player) (u : RPlayer) : Bool :=
  p.id == u.id && p.name == u.name && p.position == u.position &&
  p.mlbTeam == u.mlbTeam && p.notes == u.notes &&
  p.fantasyOwner == u.fantasyOwner && p.drafted == u.drafted &&
  p.draftNotes == u.draftNotes && p.addedDate == u.addedDate

/-- Model of `handleRealtimeUpdate(updatedPlayer)` (the update-event handler):
convert, locate the local record with the same identifier, and replace
it by `{...currentPlayer, ...playerUpdate}` only when some compared
field differs; the flag records whether `saveToStorage` ran. -/
def handleRealtimeUpdate (ps : List Player) (row : RawRow) (now : String) :
    List Player × Bool :=
  let u := convertRow row now
  match ps.findIdx? (fun p => p.id = u.id) with
  | none => (ps, false)
  | some i =>
    match ps[i]? with
    | none => (ps, false)
    | some p =>
      if fieldsEq p u then (ps, false)
      else (ps.set i (assignFields p u), true)

/-- Model of `handleRealtimeDelete(deletedPlayer)`: remove the local player at
the first index matching the incoming identifier, if any. -/
def handleRealtimeDelete (ps : List Player) (pid : String) : List Player :=
  match ps.findIdx? (fun p => p.id = pid) with
  | some i => ps.eraseIdx i
  | none => ps

/-- The durable local snapshot written by `saveToStorage`: the player
array together with the `lastUpdated` timestamp. -/
structure StoredData where
  players : List Player
  lastUpdated : String
  deriving DecidableEq, Repr

/-- In-memory collection paired with the durable snapshot, to observe
whether an operation triggers persistence. -/
structure AppState where
  players : List Player
  storage : Option StoredData
  deriving DecidableEq, Repr

/-- Model of `handleRealtimeUpdate` at the application-state level: the paths
that mutate also call `saveToStorage`, which overwrites the stored
snapshot with the new collection and a fresh `lastUpdated`. -/
def handleRealtimeUpdateS (st : AppState) (row : RawRow) (now : String) : AppState :=
  let (ps, changed) := handleRealtimeUpdate st.players row now
  if changed then { players := ps, storage := some ⟨ps, now⟩ } else st

/-- C6: drafting requires a non-empty trimmed owner; with a blank owner
nothing changes and nothing persists, and with a non-empty trimmed owner
and an existing player the record gains `drafted`, the trimmed owner,
the trimmed notes and a draft date. -/
theorem draft_requires_owner (ps : List Player) (pid owner notes now : String) :
    (jsTrim owner = "" → handleDraftPlayer ps pid owner notes now = (ps, false)) ∧
    (jsTrim owner ≠ "" →
      ∀ i p, ps.findIdx? (fun p => p.id = pid) = some i → ps[i]? = some p →
        handleDraftPlayer ps pid owner notes now =
          (ps.set i { p with drafted := true, fantasyOwner := jsTrim owner,
                             draftNotes := jsTrim notes, draftedDate := some now },
            true)) := by
  constructor
  · intro h
    unfold handleDraftPlayer
    simp [h]
  · intro h i p hfind hget
    have ho : ¬(owner = "") := by
      intro he; rw [he] at h; exact h (by decide)
    unfold handleDraftPlayer draftPlayer
    simp only [hfind, hget]
    simp [ho, h]

/-- Witness for C6: both branches at concrete inputs. -/
theorem draft_requires_owner_witness :
    (handleDraftPlayer
        [{ id := "p1", name := "Mike Trout", position := "", mlbTeam := "",
           notes := "", fantasyOwner := "", drafted := false, draftNotes := "",
           addedDate := "d0", draftedDate := none, starred := false,
           headshotUrl := "" }] "p1" "  " "x" "d1" =
      ([{ id := "p1", name := "Mike Trout", position := "", mlbTeam := "",
          notes := "", fantasyOwner := "", drafted := false, draftNotes := "",
          addedDate := "d0", draftedDate := none, starred := false,
          headshotUrl := "" }], false)) ∧
    (handleDraftPlayer
        [{ id := "p1", name := "Mike Trout", position := "", mlbTeam := "",
           notes := "", fantasyOwner := "", drafted := false, draftNotes := "",
           addedDate := "d0", draftedDate := none, starred := false,
           headshotUrl := "" }] "p1" "Dodgers Fans" "1st pick" "d1" =
      ([{ id := "p1", name := "Mike Trout", position := "", mlbTeam := "",
          notes := "", fantasyOwner := "Dodgers Fans", drafted := true,
          draftNotes := "1st pick", addedDate := "d0",
          draftedDate := some "d1", starred := false, headshotUrl := "" }],
        true)) := by
  constructor
  · exact (draft_requires_owner _ _ _ _ _).1 (by decide)
  · have h := (draft_requires_owner
      [{ id := "p1", name := "Mike Trout", position := "", mlbTeam := "",
         notes := "", fantasyOwner := "", drafted := false, draftNotes := "",
         addedDate := "d0", draftedDate := none, starred := false,
         headshotUrl := "" }] "p1" "Dodgers Fans" "1st pick" "d1").2
      (by decide) 0
      { id := "p1", name := "Mike Trout", position := "", mlbTeam := "",
        notes := "", fantasyOwner := "", drafted := false, draftNotes := "",
        addedDate := "d0", draftedDate := none, starred := false,
        headshotUrl := "" }
      (by decide) (by decide)
    rw [h]
    decide

/-- C7: a real-time update event whose converted fields all equal the
local record's is a complete no-op — the collection and the stored
snapshot (hence `lastUpdated`) are untouched; conversely, when some
compared field differs, the record is replaced by the spread of old
fields overwritten by new and the new collection is persisted with a
fresh `lastUpdated`. -/
theorem realtime_update_noop (st : AppState) (row : RawRow) (now : String)
    (i : Nat) (p : Player)
    (hfind : st.players.findIdx? (fun q => q.id = (convertRow row now).id) = some i)
    (hget : st.players[i]? = some p) :
    (fieldsEq p (convertRow row now) = true →
      handleRealtimeUpdateS st row now = st) ∧
    (fieldsEq p (convertRow row now) = false →
      handleRealtimeUpdateS st row now =
        { players := st.players.set i (assignFields p (convertRow row now)),
          storage := some ⟨st.players.set i (assignFields p (convertRow row now)), now⟩ }) := by
  constructor
  · intro heq
    unfold handleRealtimeUpdateS handleRealtimeUpdate
    simp only [hfind, hget, heq]
    simp
  · intro hne
    unfold handleRealtimeUpdateS handleRealtimeUpdate
    simp only [hfind, hget, hne]
    simp

/-- Witness for C7: an identical update event leaves a concrete state
(and its stored snapshot) unchanged. -/
theorem realtime_update_noop_witness :
    handleRealtimeUpdateS
      { players := [{ id := "11111111-2222-3333-4444-555555555555",
                      name := "Mike Trout", position := "OF", mlbTeam := "LAA",
                      notes := "", fantasyOwner := "", drafted := false,
                      draftNotes := "", addedDate := "d0", draftedDate := none,
                      starred := true, headshotUrl := "" }],
        storage := some ⟨[], "t0"⟩ }
      { id := "11111111-2222-3333-4444-555555555555",
        name := some "Mike Trout", position := some "OF", team := some "LAA",
        notes := none, owner_id := none, drafted := some false,
        draft_notes := none, created_at := some "d0" } "t9" =
      { players := [{ id := "11111111-2222-3333-4444-555555555555",
                      name := "Mike Trout", position := "OF", mlbTeam := "LAA",
                      notes := "", fantasyOwner := "", drafted := false,
                      draftNotes := "", addedDate := "d0", draftedDate := none,
                      starred := true, headshotUrl := "" }],
        storage := some ⟨[], "t0"⟩ } := by
  exact (realtime_update_noop
    { players := [{ id := "11111111-2222-3333-4444-555555555555",
                    name := "Mike Trout", position := "OF", mlbTeam := "LAA",
                    notes := "", fantasyOwner := "", drafted := false,
                    draftNotes := "", addedDate := "d0", draftedDate := none,
                    starred := true, headshotUrl := "" }],
      storage := some ⟨[], "t0"⟩ }
    { id := "11111111-2222-3333-4444-555555555555",
      name := some "Mike Trout", position := some "OF", team := some "LAA",
      notes := none, owner_id := none, drafted := some false,
      draft_notes := none, created_at := some "d0" } "t9" 0
    { id := "11111111-2222-3333-4444-555555555555",
      name := "Mike Trout", position := "OF", mlbTeam := "LAA",
      notes := "", fantasyOwner := "", drafted := false,
      draftNotes := "", addedDate := "d0", draftedDate := none,
      starred := true, headshotUrl := "" }
    (by decide) (by decide)).1 (by decide)

/-! ## The state-changing operations and the draft-shape invariant -/

/-- The state-changing inputs of the reconciliation engine: local
mutations (add, validated draft, undraft, delete), bulk remote merge,
and the three real-time events. -/
inductive Op where
  | add (name position mlbTeam notes headshotUrl uuid now : String)
  | draft (pid owner notes now : String)
  | undraft (pid : String)
  | delete (pid : String) (remote : Except Unit Unit)
  | merge (s : List RPlayer)
  | rtInsert (row : RawRow) (now : String)
  | rtUpdate (row : RawRow) (now : String)
  | rtDelete (pid : String)

/-- Apply one operation to the in-memory collection. -/
def applyOp (ps : List Player) : Op → List Player
  | .add n po t no h u nw => addPlayer ps n po t no h u nw
  | .draft pid o no nw => (handleDraftPlayer ps pid o no nw).1
  | .undraft pid => (undraftPlayer ps pid).1
  | .delete pid r => deletePlayer ps pid r
  | .merge s => mergeSupabaseData ps s
  | .rtInsert row nw => handleRealtimeInsert ps row nw
  | .rtUpdate row nw => (handleRealtimeUpdate ps row nw).1
  | .rtDelete pid => handleRealtimeDelete ps pid

/-- Run a sequence of operations from the empty collection. -/
def applyOps (ops : List Op) : List Player :=
  ops.foldl applyOp []

/-- The per-player draft-shape condition: a drafted player has a
non-empty `fantasyOwner`; an undrafted player has empty `fantasyOwner`,
empty `draftNotes`, and no `draftedDate` key. -/
def invP (p : Player) : Bool :=
  if p.drafted then !(p.fantasyOwner == "")
  else (p.fantasyOwner == "") && (p.draftNotes == "") && p.draftedDate.isNone

/-- The draft-shape invariant over the whole collection. -/
def draftShapeInv (ps : List Player) : Bool :=
  ps.all invP

/-- Operations that do not import remote record contents: add, draft,
undraft, delete, and the real-time delete event. -/
def isLocalOp : Op → Bool
  | .add .. => true
  | .draft .. => true
  | .undraft .. => true
  | .delete .. => true
  | .rtDelete .. => true
  | .merge _ => false
  | .rtInsert .. => false
  | .rtUpdate .. => false

/-- C2 counterexample: the draft-shape invariant is **not** maintained
over all the claimed operations.  A single real-time insert of a remote
row with `drafted = true` and `owner_id = null` (the handler performs no
validation and converts a null owner to the empty string) produces a
reachable state containing a drafted player with empty `fantasyOwner`. -/
theorem draft_shape_inv_cex :
    (∃ ops : List Op, applyOps ops =
      [{ id := "11111111-2222-3333-4444-555555555555",
         name := "Shohei Ohtani", position := "", mlbTeam := "", notes := "",
         fantasyOwner := "", drafted := true, draftNotes := "",
         addedDate := "t0", draftedDate := none, starred := false,
         headshotUrl := "" }]) ∧
    draftShapeInv
      [{ id := "11111111-2222-3333-4444-555555555555",
         name := "Shohei Ohtani", position := "", mlbTeam := "", notes := "",
         fantasyOwner := "", drafted := true, draftNotes := "",
         addedDate := "t0", draftedDate := none, starred := false,
         headshotUrl := "" }] = false := by
  refine ⟨⟨[Op.rtInsert
    { id := "11111111-2222-3333-4444-555555555555",
      name := some "Shohei Ohtani", position := none, team := none,
      notes := none, owner_id := none, drafted := some true,
      draft_notes := none, created_at := some "t0" } "tX"], ?_⟩, by decide⟩
  decide

/-- C2 amended: the draft-shape invariant holds in every state reachable
from the empty collection by the operations that do not import remote
record contents: add, validated draft, undraft, delete, and real-time
delete events. -/
theorem draft_shape_inv_local (ops : List Op)
    (h : ∀ op ∈ ops, isLocalOp op = true) :
    draftShapeInv (applyOps ops) = true := by
  have hset : ∀ (ps : List Player) (i : Nat) (q : Player),
      draftShapeInv ps = true → invP q = true →
      draftShapeInv (ps.set i q) = true := by
    intro ps i q hps hq
    rw [draftShapeInv, List.all_eq_true]
    intro a ha
    rcases List.mem_or_eq_of_mem_set ha with ha | rfl
    · exact (List.all_eq_true.mp hps) a ha
    · exact hq
  have step : ∀ (ps : List Player) (op : Op), isLocalOp op = true →
      draftShapeInv ps = true → draftShapeInv (applyOp ps op) = true := by
    intro ps op hop hps
    cases op with
    | add n po t no hd u nw =>
      simp only [applyOp, addPlayer, draftShapeInv, List.all_append]
      rw [draftShapeInv] at hps
      simp [hps, invP]
    | draft pid o no nw =>
      simp only [applyOp, handleDraftPlayer]
      by_cases hg : o = "" ∨ jsTrim o = ""
      · have : (o = "" || jsTrim o = "") = true := by
          rcases hg with hg | hg <;> simp [hg]
        simp [this, hps]
      · have hg1 : ¬(o = "") := fun hx => hg (Or.inl hx)
        have hg2 : ¬(jsTrim o = "") := fun hx => hg (Or.inr hx)
        have : (o = "" || jsTrim o = "") = false := by simp [hg1, hg2]
        rw [this]
        simp only [Bool.false_eq_true, if_false, draftPlayer]
        cases hf : ps.findIdx? (fun p => p.id = pid) with
        | none => exact hps
        | some i =>
          cases hgt : ps[i]? with
          | none => simp only [hgt]; exact hps
          | some p =>
            simp only [hgt]
            apply hset _ _ _ hps
            simp [invP, hg2]
    | undraft pid =>
      simp only [applyOp, undraftPlayer]
      cases hf : ps.findIdx? (fun p => p.id = pid) with
      | none => exact hps
      | some i =>
        cases hgt : ps[i]? with
        | none => simp only [hgt]; exact hps
        | some p =>
          simp only [hgt]
          apply hset _ _ _ hps
          simp [invP]
    | delete pid r =>
      simp only [applyOp, deletePlayer]
      cases hf : ps.find? (fun p => p.id = pid) with
      | none => exact hps
      | some p =>
        have hfilter : draftShapeInv (ps.filter (fun p => p.id ≠ pid)) = true := by
          rw [draftShapeInv, List.all_eq_true]
          intro a ha
          exact (List.all_eq_true.mp hps) a (List.mem_filter.mp ha).1
        cases r with
        | ok _ => exact hfilter
        | error _ => exact hfilter
    | rtDelete pid =>
      simp only [applyOp, handleRealtimeDelete]
      cases hf : ps.findIdx? (fun p => p.id = pid) with
      | none => exact hps
      | some i =>
        rw [draftShapeInv, List.all_eq_true]
        intro a ha
        exact (List.all_eq_true.mp hps) a (List.mem_of_mem_eraseIdx ha)
    | merge s => simp [isLocalOp] at hop
    | rtInsert row nw => simp [isLocalOp] at hop
    | rtUpdate row nw => simp [isLocalOp] at hop
  have gen : ∀ (ops : List Op) (ps : List Player),
      draftShapeInv ps = true → (∀ op ∈ ops, isLocalOp op = true) →
      draftShapeInv (ops.foldl applyOp ps) = true := by
    intro ops
    induction ops with
    | nil => intro ps hps _; exact hps
    | cons op rest ih =>
      intro ps hps hall
      rw [List.foldl_cons]
      exact ih _ (step ps op (hall op (by simp)) hps)
        (fun o ho => hall o (by simp [ho]))
  exact gen ops [] (by decide) h

/-- Witness for the amended C2 at a concrete local-operation run:
add, draft, undraft. -/
theorem draft_shape_inv_local_witness :
    draftShapeInv (applyOps
      [Op.add "Mike Trout" "OF" "LAA" "" "" "11111111-2222-3333-4444-555555555555" "t0",
       Op.draft "11111111-2222-3333-4444-555555555555" "Team A" "1st" "t1",
       Op.undraft "11111111-2222-3333-4444-555555555555"]) = true := by
  exact draft_shape_inv_local _ (by decide)

/-! ## Positional characterization of the bulk merge

The JavaScript merge walks the remote snapshot once, updating existing
player objects through the id→object map built at entry and pushing the
rest.  The following helpers describe the result positionally: position
`j` of the original collection ends up holding the fold of `mergeInto`
over the remote records whose identifier maps to `j`, and the appended
tail is the image of the records whose identifier maps to no original
player. -/

/-- The remote records of `s` that target original position `j`. -/
def recsAt (ids : List String) (s : List RPlayer) (j : Nat) : List RPlayer :=
  s.filter (fun r => !isInvalidId r.id && lastIdxOf ids r.id == some j)

/-- The final content of original position `j` that held `p`. -/
def mergedAt (ids : List String) (s : List RPlayer) (j : Nat) (p : Player) : Player :=
  (recsAt ids s j).foldl mergeInto p

/-- All original positions updated, starting at offset `n`. -/
def updAll (ids : List String) (s : List RPlayer) : List Player → Nat → List Player
  | [], _ => []
  | p :: ps, n => mergedAt ids s n p :: updAll ids s ps (n + 1)

/-- The remote records of `s` appended as new players. -/
def appendedRecs (ids : List String) (s : List RPlayer) : List RPlayer :=
  s.filter (fun r => !isInvalidId r.id && (lastIdxOf ids r.id).isNone)

theorem lastIdxOf_lt {ids : List String} {x : String} {j : Nat}
    (h : lastIdxOf ids x = some j) : j < ids.length := by
  induction ids generalizing j with
  | nil => simp [lastIdxOf] at h
  | cons y rest ih =>
    rw [lastIdxOf] at h
    cases hr : lastIdxOf rest x with
    | some m =>
      rw [hr] at h
      cases h
      have := ih hr
      simp only [List.length_cons]
      omega
    | none =>
      rw [hr] at h
      by_cases hy : y = x
      · simp [hy] at h
        simp [← h]
      · simp [hy] at h

theorem lastIdxOf_getElem {ids : List String} {x : String} {j : Nat}
    (h : lastIdxOf ids x = some j) : ids[j]? = some x := by
  induction ids generalizing j with
  | nil => simp [lastIdxOf] at h
  | cons y rest ih =>
    rw [lastIdxOf] at h
    cases hr : lastIdxOf rest x with
    | some m =>
      rw [hr] at h
      cases h
      simpa using ih hr
    | none =>
      rw [hr] at h
      by_cases hy : y = x
      · simp [hy] at h
        simp [← h, hy]
      · simp [hy] at h

theorem lastIdxOf_eq_none_iff {ids : List String} {x : String} :
    lastIdxOf ids x = none ↔ x ∉ ids := by
  induction ids with
  | nil => simp [lastIdxOf]
  | cons y rest ih =>
    rw [lastIdxOf]
    cases hr : lastIdxOf rest x with
    | some m =>
      have hx : x ∈ rest := by
        by_contra hmem
        rw [ih.mpr hmem] at hr
        cases hr
      simp only []
      constructor
      · intro h; cases h
      · intro h; exact absurd (List.mem_cons_of_mem y hx) h
    | none =>
      simp only []
      by_cases hy : y = x
      · subst hy
        simp
      · constructor
        · intro _ hmem
          rcases List.mem_cons.mp hmem with h | h
          · exact hy h.symm
          · exact (ih.mp hr) h
        · intro _
          simp [hy]

theorem lastIdxOf_append (a b : List String) (x : String) :
    lastIdxOf (a ++ b) x =
      match lastIdxOf b x with
      | some j => some (a.length + j)
      | none => lastIdxOf a x := by
  induction a with
  | nil =>
    cases h : lastIdxOf b x <;> simp [lastIdxOf, h]
  | cons y rest ih =>
    rw [List.cons_append, lastIdxOf, ih]
    cases h : lastIdxOf b x with
    | some j =>
      simp only []
      cases hr : lastIdxOf rest x <;> simp [lastIdxOf, List.length_cons] <;> omega
    | none =>
      simp only []
      rw [lastIdxOf]

theorem lastIdxOf_of_nodup {ids : List String} {x : String} {j : Nat}
    (hnd : ids.Nodup) (hj : ids[j]? = some x) : lastIdxOf ids x = some j := by
  induction ids generalizing j with
  | nil => simp at hj
  | cons y rest ih =>
    rcases List.nodup_cons.mp hnd with ⟨hy, hrest⟩
    cases j with
    | zero =>
      simp at hj
      subst hj
      have : lastIdxOf rest y = none := lastIdxOf_eq_none_iff.mpr hy
      rw [lastIdxOf, this]
      simp
    | succ m =>
      simp only [List.getElem?_cons_succ] at hj
      have := ih hrest hj
      rw [lastIdxOf, this]

theorem updAll_length (ids : List String) (s : List RPlayer)
    (ps : List Player) (n : Nat) : (updAll ids s ps n).length = ps.length := by
  induction ps generalizing n with
  | nil => rfl
  | cons p rest ih => simp [updAll, ih]

theorem updAll_getElem? (ids : List String) (s : List RPlayer)
    (ps : List Player) (n k : Nat) :
    (updAll ids s ps n)[k]? = (ps[k]?).map (mergedAt ids s (n + k)) := by
  induction ps generalizing n k with
  | nil => simp [updAll]
  | cons p rest ih =>
    cases k with
    | zero => simp [updAll]
    | succ m =>
      simp only [updAll, List.getElem?_cons_succ, ih]
      have : n + (m + 1) = (n + 1) + m := by omega
      rw [this]

theorem updAll_append (ids : List String) (s : List RPlayer)
    (ps qs : List Player) (n : Nat) :
    updAll ids s (ps ++ qs) n = updAll ids s ps n ++ updAll ids s qs (n + ps.length) := by
  induction ps generalizing n with
  | nil => simp [updAll]
  | cons p rest ih =>
    simp only [List.cons_append, updAll, List.append_eq, ih, List.length_cons]
    have : n + 1 + rest.length = n + (rest.length + 1) := by omega
    rw [this]

theorem updAll_congr {ids : List String} {s₁ s₂ : List RPlayer}
    (h : ∀ j, recsAt ids s₁ j = recsAt ids s₂ j)
    (ps : List Player) (n : Nat) :
    updAll ids s₁ ps n = updAll ids s₂ ps n := by
  induction ps generalizing n with
  | nil => rfl
  | cons p rest ih =>
    simp only [updAll, mergedAt, h n, ih]

theorem updAll_nil (ids : List String) (ps : List Player) (n : Nat) :
    updAll ids [] ps n = ps := by
  induction ps generalizing n with
  | nil => rfl
  | cons p rest ih =>
    simp [updAll, mergedAt, recsAt, ih]

theorem merge_foldl_eq (s : List RPlayer) :
    ∀ (ids : List String) (ps : List Player), ids.length ≤ ps.length →
      s.foldl (mergeStep ids) ps =
        updAll ids s ps 0 ++ (appendedRecs ids s).map toPlayer := by
  induction s with
  | nil =>
    intro ids ps _
    simp [appendedRecs, updAll_nil]
  | cons r rs ih =>
    intro ids ps hlen
    rw [List.foldl_cons]
    by_cases hinv : isInvalidId r.id = true
    · have hstep : mergeStep ids ps r = ps := by
        simp [mergeStep, hinv]
      have hrecs : ∀ j, recsAt ids (r :: rs) j = recsAt ids rs j := by
        intro j
        simp [recsAt, List.filter_cons, hinv]
      have happ : appendedRecs ids (r :: rs) = appendedRecs ids rs := by
        simp [appendedRecs, List.filter_cons, hinv]
      rw [hstep, ih ids ps hlen, happ, updAll_congr hrecs ps 0]
    · have hinv' : isInvalidId r.id = false := by
        simpa using hinv
      cases hli : lastIdxOf ids r.id with
      | some j =>
        have hjlt : j < ids.length := lastIdxOf_lt hli
        have hjps : j < ps.length := lt_of_lt_of_le hjlt hlen
        have hp : ps[j]? = some ps[j] := List.getElem?_eq_getElem hjps
        have hstep : mergeStep ids ps r = ps.set j (mergeInto ps[j] r) := by
          simp [mergeStep, hinv', hli, hp]
        rw [hstep, ih ids _ (by rw [List.length_set]; exact hlen)]
        have happ : appendedRecs ids (r :: rs) = appendedRecs ids rs := by
          simp [appendedRecs, List.filter_cons, hinv', hli]
        rw [happ]
        congr 1
        apply List.ext_getElem?
        intro k
        rw [updAll_getElem?, updAll_getElem?]
        by_cases hk : k = j
        · subst hk
          have hset : (ps.set k (mergeInto ps[k] r))[k]? = some (mergeInto ps[k] r) := by
            rw [List.getElem?_set_self']
            simp [List.getElem?_eq_getElem hjps]
          rw [hset, hp]
          have hcons : recsAt ids (r :: rs) k = r :: recsAt ids rs k := by
            simp [recsAt, List.filter_cons, hinv', hli]
          simp [mergedAt, hcons]
        · rw [List.getElem?_set_ne (fun h => hk h.symm)]
          have hbeq : ((some j : Option Nat) == some k) = false := by
            simpa using fun h => hk h.symm
          have hdrop : recsAt ids (r :: rs) k = recsAt ids rs k := by
            simp [recsAt, List.filter_cons, hinv', hli, hbeq]
          have hfun : mergedAt ids (r :: rs) k = mergedAt ids rs k := by
            funext p
            simp [mergedAt, hdrop]
          simp [hfun]
      | none =>
        have hstep : mergeStep ids ps r = ps ++ [toPlayer r] := by
          simp [mergeStep, hinv', hli]
        rw [hstep, ih ids _ (by simp; omega)]
        rw [updAll_append]
        have h1 : updAll ids rs [toPlayer r] (0 + ps.length) = [toPlayer r] := by
          have hrecs0 : recsAt ids rs ps.length = [] := by
            rw [recsAt, List.filter_eq_nil_iff]
            intro a _
            cases hla : lastIdxOf ids a.id with
            | some m =>
              have hm : m ≠ ps.length := by
                have := lastIdxOf_lt hla
                omega
              simp [hla, hm]
            | none => simp [hla]
          simp [updAll, mergedAt, hrecs0]
        rw [h1]
        have happ : appendedRecs ids (r :: rs) = r :: appendedRecs ids rs := by
          simp [appendedRecs, List.filter_cons, hinv', hli]
        rw [happ]
        have hupd : updAll ids (r :: rs) ps 0 = updAll ids rs ps 0 :=
          updAll_congr (fun j => by simp [recsAt, List.filter_cons, hinv', hli]) ps 0
        rw [hupd]
        simp

/-- The positional description of `mergeSupabaseData`: each original
position is folded with its targeting records, and valid unmatched
records are appended in snapshot order. -/
theorem mergeSupabaseData_eq (ps : List Player) (s : List RPlayer) :
    mergeSupabaseData ps s =
      updAll (ps.map (·.id)) s ps 0 ++
        (appendedRecs (ps.map (·.id)) s).map toPlayer :=
  merge_foldl_eq s _ ps (by simp)

theorem mergeInto_id (p : Player) (r : RPlayer) : (mergeInto p r).id = r.id := by
  unfold mergeInto assignFields
  split <;> rfl

theorem foldl_mergeInto_id {l : List RPlayer} {p : Player}
    (h : ∀ r ∈ l, r.id = p.id) : (l.foldl mergeInto p).id = p.id := by
  induction l generalizing p with
  | nil => rfl
  | cons r t ih =>
    rw [List.foldl_cons]
    have hid : (mergeInto p r).id = p.id := by
      rw [mergeInto_id]
      exact h r (by simp)
    exact (ih (fun r' h' => by
      rw [h r' (List.mem_cons_of_mem r h'), ← hid])).trans hid

theorem updAll_map_id (ps : List Player) (s : List RPlayer) :
    (updAll (ps.map (·.id)) s ps 0).map (·.id) = ps.map (·.id) := by
  apply List.ext_getElem?
  intro k
  rw [List.getElem?_map, updAll_getElem?, List.getElem?_map]
  cases hk : ps[k]? with
  | none => rfl
  | some p =>
    simp only [Option.map_some']
    congr 1
    have : ∀ r ∈ recsAt (ps.map (·.id)) s (0 + k), r.id = p.id := by
      intro r hr
      obtain ⟨-, hc⟩ := List.mem_filter.mp hr
      simp only [Bool.and_eq_true] at hc
      have hli : lastIdxOf (ps.map (·.id)) r.id = some (0 + k) := by
        simpa using hc.2
      have hg := lastIdxOf_getElem hli
      rw [List.getElem?_map] at hg
      simp only [Nat.zero_add, hk, Option.map_some'] at hg
      exact (Option.some.inj hg).symm
    simpa [mergedAt] using foldl_mergeInto_id this

theorem pairwise_id_of_nodup {s : List RPlayer} (h : (s.map (·.id)).Nodup) :
    s.Pairwise (fun a b => a.id ≠ b.id) :=
  List.pairwise_map.mp h

theorem eq_of_pairwise_id {s : List RPlayer}
    (h : s.Pairwise (fun a b => a.id ≠ b.id))
    {a b : RPlayer} (ha : a ∈ s) (hb : b ∈ s) (hid : a.id = b.id) : a = b := by
  induction s with
  | nil => cases ha
  | cons x t ih =>
    rcases List.pairwise_cons.mp h with ⟨hx, ht⟩
    rcases List.mem_cons.mp ha with rfl | hat
    · rcases List.mem_cons.mp hb with rfl | hbt
      · rfl
      · exact absurd hid (hx b hbt)
    · rcases List.mem_cons.mp hb with rfl | hbt
      · exact absurd hid.symm (hx a hat)
      · exact ih ht hat hbt

theorem filter_eq_singleton {α : Type} {l : List α} {p : α → Bool} {a : α}
    (hnd : l.Nodup) (ha : a ∈ l) (hpa : p a = true)
    (huniq : ∀ b ∈ l, p b = true → b = a) : l.filter p = [a] := by
  induction l with
  | nil => cases ha
  | cons x t ih =>
    rcases List.nodup_cons.mp hnd with ⟨hx, ht⟩
    rcases List.mem_cons.mp ha with rfl | hat
    · rw [List.filter_cons]
      simp only [hpa, if_true]
      have : t.filter p = [] := by
        rw [List.filter_eq_nil_iff]
        intro b hb hpb
        exact hx ((huniq b (by simp [hb]) (by simpa using hpb)) ▸ hb)
      rw [this]
    · have hpx : p x = false := by
        rcases hpxv : p x with _ | _
        · rfl
        · have hxa : x = a := huniq x (by simp) hpxv
          subst hxa
          exact absurd hat hx
      rw [List.filter_cons]
      simp only [hpx]
      exact ih ht hat (fun b hb hpb => huniq b (List.mem_cons_of_mem x hb) hpb)

/-- C1: draft precedence during bulk merge.  For a snapshot of remote
rows (distinct identifiers, as rows of the id-keyed `players` table) and
a local collection with distinct identifiers, if a row passes the
validity classifier, reports not drafted (`drafted` explicitly `false`
or absent — both convert to `false`), and matches a drafted local
player, then after the merge that position still holds a drafted player
carrying the pre-merge `fantasyOwner`, `draftNotes` and `draftedDate`. -/
theorem merge_draft_precedence
    (ps : List Player) (rows : List RawRow) (now : String)
    (hlocal : (ps.map (·.id)).Nodup)
    (hremote : ((rows.map (fun w => convertRow w now)).map (·.id)).Nodup)
    (row : RawRow) (hrow : row ∈ rows)
    (hvalid : isInvalidId row.id = false)
    (hnd : row.drafted = some false ∨ row.drafted = none)
    (i : Nat) (p : Player) (hp : ps[i]? = some p)
    (hid : p.id = row.id) (hdr : p.drafted = true) :
    ∃ q, (mergeSupabaseData ps (rows.map (fun w => convertRow w now)))[i]? = some q ∧
      q.drafted = true ∧ q.fantasyOwner = p.fantasyOwner ∧
      q.draftNotes = p.draftNotes ∧ q.draftedDate = p.draftedDate := by
  have hi : i < ps.length := (List.getElem?_eq_some.mp hp).1
  have hrid : (convertRow row now).id = row.id := rfl
  have hrd : (convertRow row now).drafted = false := by
    rcases hnd with h | h <;> simp [convertRow, h]
  have hrS : convertRow row now ∈ rows.map (fun w => convertRow w now) :=
    List.mem_map_of_mem _ hrow
  have hids : (ps.map (·.id))[i]? = some p.id := by
    rw [List.getElem?_map, hp]
    rfl
  have hli : lastIdxOf (ps.map (·.id)) row.id = some i := by
    rw [← hid]
    exact lastIdxOf_of_nodup hlocal hids
  have hpw : (rows.map (fun w => convertRow w now)).Pairwise (fun a b => a.id ≠ b.id) :=
    pairwise_id_of_nodup hremote
  have hsnd : (rows.map (fun w => convertRow w now)).Nodup :=
    List.Nodup.of_map _ hremote
  have hfilter : recsAt (ps.map (·.id)) (rows.map (fun w => convertRow w now)) i =
      [convertRow row now] := by
    apply filter_eq_singleton hsnd hrS
    · simp [hrid, hvalid, hli]
    · intro b hb hcb
      simp only [Bool.and_eq_true] at hcb
      have hlib : lastIdxOf (ps.map (·.id)) b.id = some i := by simpa using hcb.2
      have := lastIdxOf_getElem hlib
      rw [hids] at this
      exact eq_of_pairwise_id hpw hb hrS (by
        rw [hrid, ← hid]
        exact (Option.some.inj this).symm)
  rw [mergeSupabaseData_eq]
  have hlenA : i < (updAll (ps.map (·.id)) (rows.map (fun w => convertRow w now)) ps 0).length := by
    rw [updAll_length]
    exact hi
  rw [List.getElem?_append, if_pos hlenA, updAll_getElem?, hp]
  refine ⟨_, rfl, ?_⟩
  simp only [Nat.zero_add, mergedAt, hfilter, List.foldl_cons, List.foldl_nil]
  unfold mergeInto assignFields
  simp [hdr, hrd]

/-- Witness for C1: a drafted local player with owner `Team A` survives
a remote row with `drafted = false` for the same identifier. -/
theorem merge_draft_precedence_witness :
    ∃ q, (mergeSupabaseData
      [{ id := "11111111-2222-3333-4444-555555555555", name := "Mike Trout",
         position := "OF", mlbTeam := "LAA", notes := "",
         fantasyOwner := "Team A", drafted := true, draftNotes := "1st",
         addedDate := "d0", draftedDate := some "d1", starred := false,
         headshotUrl := "" }]
      ([({ id := "11111111-2222-3333-4444-555555555555",
           name := some "Mike Trout", position := some "OF",
           team := some "LAA", notes := none, owner_id := none,
           drafted := some false, draft_notes := none,
           created_at := some "d0" } : RawRow)].map
        (fun w => convertRow w "t1")))[0]? = some q ∧
      q.drafted = true ∧ q.fantasyOwner = "Team A" ∧
      q.draftNotes = "1st" ∧ q.draftedDate = some "d1" := by
  have h := merge_draft_precedence
    [{ id := "11111111-2222-3333-4444-555555555555", name := "Mike Trout",
       position := "OF", mlbTeam := "LAA", notes := "",
       fantasyOwner := "Team A", drafted := true, draftNotes := "1st",
       addedDate := "d0", draftedDate := some "d1", starred := false,
       headshotUrl := "" }]
    [{ id := "11111111-2222-3333-4444-555555555555",
       name := some "Mike Trout", position := some "OF",
       team := some "LAA", notes := none, owner_id := none,
       drafted := some false, draft_notes := none,
       created_at := some "d0" }] "t1"
    (by decide) (by decide)
    { id := "11111111-2222-3333-4444-555555555555",
      name := some "Mike Trout", position := some "OF",
      team := some "LAA", notes := none, owner_id := none,
      drafted := some false, draft_notes := none,
      created_at := some "d0" }
    (by simp) (by decide) (Or.inl rfl) 0
    { id := "11111111-2222-3333-4444-555555555555", name := "Mike Trout",
      position := "OF", mlbTeam := "LAA", notes := "",
      fantasyOwner := "Team A", drafted := true, draftNotes := "1st",
      addedDate := "d0", draftedDate := some "d1", starred := false,
      headshotUrl := "" }
    (by decide) (by decide) (by decide)
  obtain ⟨q, hq, h1, h2, h3, h4⟩ := h
  exact ⟨q, hq, h1, h2, h3, h4⟩

theorem mergeInto_idem (p : Player) (r : RPlayer) :
    mergeInto (mergeInto p r) r = mergeInto p r := by
  cases hp : p.drafted <;> cases hr : r.drafted <;>
    simp [mergeInto, assignFields, hp, hr]

theorem mergeInto_toPlayer (r : RPlayer) :
    mergeInto (toPlayer r) r = toPlayer r := by
  cases hr : r.drafted <;>
    simp [mergeInto, assignFields, toPlayer, hr]

theorem recsAt_subsingleton {ids : List String} {s : List RPlayer} {j : Nat}
    (hnd : (s.map (·.id)).Nodup) :
    recsAt ids s j = [] ∨ ∃ r, recsAt ids s j = [r] := by
  have hpw : s.Pairwise (fun a b => a.id ≠ b.id) := pairwise_id_of_nodup hnd
  cases hf : recsAt ids s j with
  | nil => exact Or.inl rfl
  | cons a t =>
    cases ht : t with
    | nil => exact Or.inr ⟨a, rfl⟩
    | cons b u =>
      exfalso
      subst ht
      have hsub : List.Sublist (recsAt ids s j) s := List.filter_sublist s
      rw [hf] at hsub
      have hpw2 : (a :: b :: u).Pairwise (fun x y => x.id ≠ y.id) :=
        hpw.sublist hsub
      have hab : a.id ≠ b.id := (List.pairwise_cons.mp hpw2).1 b (by simp)
      have hamem : a ∈ recsAt ids s j := by rw [hf]; simp
      have hbmem : b ∈ recsAt ids s j := by rw [hf]; simp
      obtain ⟨-, hca⟩ := List.mem_filter.mp hamem
      obtain ⟨-, hcb⟩ := List.mem_filter.mp hbmem
      simp only [Bool.and_eq_true] at hca hcb
      have hla : lastIdxOf ids a.id = some j := by simpa using hca.2
      have hlb : lastIdxOf ids b.id = some j := by simpa using hcb.2
      have h1 := lastIdxOf_getElem hla
      have h2 := lastIdxOf_getElem hlb
      rw [h1] at h2
      exact hab (Option.some.inj h2)

/-- C4: merge idempotence.  Remote snapshots are rows of the id-keyed
`players` table, so their identifiers are distinct; merging such a
non-empty snapshot twice yields exactly the collection obtained by
merging it once — no duplicate rows, no further field changes. -/
theorem merge_idempotent (ps : List Player) (s : List RPlayer)
    (hne : s ≠ []) (hnd : (s.map (·.id)).Nodup) :
    mergeSupabaseData (mergeSupabaseData ps s) s = mergeSupabaseData ps s := by
  have hpw : s.Pairwise (fun a b => a.id ≠ b.id) := pairwise_id_of_nodup hnd
  have hsnd : s.Nodup := List.Nodup.of_map _ hnd
  have hP1 := mergeSupabaseData_eq ps s
  have hBid : ((appendedRecs (ps.map (·.id)) s).map toPlayer).map (·.id)
      = (appendedRecs (ps.map (·.id)) s).map (·.id) := by
    rw [List.map_map]
    rfl
  have hP1id : (mergeSupabaseData ps s).map (·.id)
      = ps.map (·.id) ++ (appendedRecs (ps.map (·.id)) s).map (·.id) := by
    rw [hP1, List.map_append, updAll_map_id, hBid]
  have hnotB : ∀ x j, lastIdxOf (ps.map (·.id)) x = some j →
      lastIdxOf ((appendedRecs (ps.map (·.id)) s).map (·.id)) x = none := by
    intro x j hx
    rw [lastIdxOf_eq_none_iff]
    intro hmem
    obtain ⟨r', hr', hrid⟩ := List.mem_map.mp hmem
    obtain ⟨-, hc⟩ := List.mem_filter.mp hr'
    simp only [Bool.and_eq_true] at hc
    have hnone : lastIdxOf (ps.map (·.id)) r'.id = none := by
      simpa [Option.isNone_iff_eq_none] using hc.2
    rw [hrid] at hnone
    rw [hnone] at hx
    cases hx
  have hBnodup : ((appendedRecs (ps.map (·.id)) s).map (·.id)).Nodup := by
    have hsub : List.Sublist ((appendedRecs (ps.map (·.id)) s).map (·.id))
        (s.map (·.id)) :=
      List.Sublist.map _ (List.filter_sublist s)
    exact hnd.sublist hsub
  have hP2 := mergeSupabaseData_eq (mergeSupabaseData ps s) s
  have hA2 : appendedRecs ((mergeSupabaseData ps s).map (·.id)) s = [] := by
    rw [appendedRecs, List.filter_eq_nil_iff]
    intro r hr
    cases hv : isInvalidId r.id with
    | true => simp [hv]
    | false =>
      simp only [hv, Bool.not_false, Bool.true_and]
      rw [hP1id, lastIdxOf_append]
      cases hc1 : lastIdxOf (ps.map (·.id)) r.id with
      | some j =>
        rw [hnotB r.id j hc1]
        simp [hc1]
      | none =>
        have hmem : r.id ∈ (appendedRecs (ps.map (·.id)) s).map (·.id) := by
          apply List.mem_map_of_mem
          rw [appendedRecs, List.mem_filter]
          exact ⟨hr, by simp [hv, hc1]⟩
        cases hcB : lastIdxOf ((appendedRecs (ps.map (·.id)) s).map (·.id)) r.id with
        | none =>
          rw [lastIdxOf_eq_none_iff] at hcB
          exact absurd hmem hcB
        | some m => simp
  rw [hP2, hA2]
  simp only [List.map_nil, List.append_nil]
  apply List.ext_getElem?
  intro k
  rw [updAll_getElem?]
  simp only [Nat.zero_add]
  cases hk : (mergeSupabaseData ps s)[k]? with
  | none => rfl
  | some q =>
    simp only [Option.map_some']
    congr 1
    by_cases hkA : k < ps.length
    · have hup : (updAll (ps.map (·.id)) s ps 0).length = ps.length :=
        updAll_length _ _ _ _
      have hAk : (updAll (ps.map (·.id)) s ps 0)[k]? =
          some (mergedAt (ps.map (·.id)) s k ps[k]) := by
        rw [updAll_getElem?, List.getElem?_eq_getElem hkA]
        simp
      have hq : q = mergedAt (ps.map (·.id)) s k ps[k] := by
        have hk' := hk
        rw [hP1, List.getElem?_append, if_pos (by rw [hup]; exact hkA), hAk] at hk'
        exact (Option.some.inj hk').symm
      have hrecs : recsAt ((mergeSupabaseData ps s).map (·.id)) s k =
          recsAt (ps.map (·.id)) s k := by
        rw [recsAt, recsAt]
        apply List.filter_congr
        intro r hr
        cases hv : isInvalidId r.id with
        | true => simp [hv]
        | false =>
          simp only [hv, Bool.not_false, Bool.true_and]
          rw [hP1id, lastIdxOf_append]
          cases hc1 : lastIdxOf (ps.map (·.id)) r.id with
          | some j => rw [hnotB r.id j hc1]
          | none =>
            cases hcB : lastIdxOf ((appendedRecs (ps.map (·.id)) s).map (·.id)) r.id with
            | none => rfl
            | some m =>
              simp <;> omega
      rw [hq]
      rcases @recsAt_subsingleton (ps.map (·.id)) s k hnd with
        hcase | ⟨r, hcase⟩
      · simp [mergedAt, hrecs, hcase]
      · simp [mergedAt, hrecs, hcase, mergeInto_idem]
    · push_neg at hkA
      have hup : (updAll (ps.map (·.id)) s ps 0).length = ps.length :=
        updAll_length _ _ _ _
      have hkB := hk
      rw [hP1, List.getElem?_append, if_neg (by rw [hup]; omega), hup,
        List.getElem?_map] at hkB
      cases hm : (appendedRecs (ps.map (·.id)) s)[k - ps.length]? with
      | none =>
        rw [hm] at hkB
        cases hkB
      | some rm =>
        rw [hm] at hkB
        have hq : q = toPlayer rm := (Option.some.inj hkB).symm
        have hrm_mem : rm ∈ appendedRecs (ps.map (·.id)) s := by
          obtain ⟨hl, he⟩ := List.getElem?_eq_some.mp hm
          rw [← he]
          exact List.getElem_mem hl
        obtain ⟨hrm_s, hrm_cond⟩ := List.mem_filter.mp hrm_mem
        simp only [Bool.and_eq_true] at hrm_cond
        have hrm_valid : isInvalidId rm.id = false := by
          simpa using hrm_cond.1
        have hrm_none : lastIdxOf (ps.map (·.id)) rm.id = none := by
          simpa [Option.isNone_iff_eq_none] using hrm_cond.2
        have hidsBk : ((appendedRecs (ps.map (·.id)) s).map (·.id))[k - ps.length]? =
            some rm.id := by
          rw [List.getElem?_map, hm]
          rfl
        have hlB : lastIdxOf ((appendedRecs (ps.map (·.id)) s).map (·.id)) rm.id =
            some (k - ps.length) :=
          lastIdxOf_of_nodup hBnodup hidsBk
        have hsingle : recsAt ((mergeSupabaseData ps s).map (·.id)) s k = [rm] := by
          rw [recsAt]
          apply filter_eq_singleton hsnd hrm_s
          · simp only [hrm_valid, Bool.not_false, Bool.true_and]
            rw [hP1id, lastIdxOf_append, hlB]
            simp <;> omega
          · intro b hb hcb
            simp only [Bool.and_eq_true] at hcb
            have hbl : lastIdxOf ((mergeSupabaseData ps s).map (·.id)) b.id = some k := by
              simpa using hcb.2
            rw [hP1id, lastIdxOf_append] at hbl
            cases hb1 : lastIdxOf (ps.map (·.id)) b.id with
            | some j =>
              rw [hnotB b.id j hb1, hb1] at hbl
              have hjlt := lastIdxOf_lt hb1
              rw [List.length_map] at hjlt
              have := Option.some.inj hbl
              omega
            | none =>
              rw [hb1] at hbl
              cases hbB : lastIdxOf ((appendedRecs (ps.map (·.id)) s).map (·.id)) b.id with
              | none =>
                rw [hbB] at hbl
                cases hbl
              | some mb =>
                rw [hbB] at hbl
                have hmb : mb = k - ps.length := by
                  have := Option.some.inj hbl
                  rw [List.length_map] at this
                  omega
                subst hmb
                have hg := lastIdxOf_getElem hbB
                rw [hidsBk] at hg
                exact eq_of_pairwise_id hpw hb hrm_s (Option.some.inj hg).symm
        rw [hq]
        simp [mergedAt, hsingle, mergeInto_toPlayer]

/-- Witness for C4 at a concrete snapshot: one matching drafted-false
row and one new row, merged twice. -/
theorem merge_idempotent_witness :
    mergeSupabaseData
      (mergeSupabaseData
        [{ id := "11111111-2222-3333-4444-555555555555", name := "Mike Trout",
           position := "OF", mlbTeam := "LAA", notes := "",
           fantasyOwner := "Team A", drafted := true, draftNotes := "1st",
           addedDate := "d0", draftedDate := some "d1", starred := false,
           headshotUrl := "" }]
        [{ id := "11111111-2222-3333-4444-555555555555", name := "Mike Trout",
           position := "OF", mlbTeam := "LAA", notes := "", fantasyOwner := "",
           drafted := false, draftNotes := "", addedDate := "d0" },
         { id := "99999999-8888-7777-6666-555555555555", name := "Juan Soto",
           position := "OF", mlbTeam := "NYM", notes := "", fantasyOwner := "",
           drafted := false, draftNotes := "", addedDate := "d2" }])
      [{ id := "11111111-2222-3333-4444-555555555555", name := "Mike Trout",
         position := "OF", mlbTeam := "LAA", notes := "", fantasyOwner := "",
         drafted := false, draftNotes := "", addedDate := "d0" },
       { id := "99999999-8888-7777-6666-555555555555", name := "Juan Soto",
         position := "OF", mlbTeam := "NYM", notes := "", fantasyOwner := "",
         drafted := false, draftNotes := "", addedDate := "d2" }] =
    mergeSupabaseData
      [{ id := "11111111-2222-3333-4444-555555555555", name := "Mike Trout",
         position := "OF", mlbTeam := "LAA", notes := "",
         fantasyOwner := "Team A", drafted := true, draftNotes := "1st",
         addedDate := "d0", draftedDate := some "d1", starred := false,
         headshotUrl := "" }]
      [{ id := "11111111-2222-3333-4444-555555555555", name := "Mike Trout",
         position := "OF", mlbTeam := "LAA", notes := "", fantasyOwner := "",
         drafted := false, draftNotes := "", addedDate := "d0" },
       { id := "99999999-8888-7777-6666-555555555555", name := "Juan Soto",
         position := "OF", mlbTeam := "NYM", notes := "", fantasyOwner := "",
         drafted := false, draftNotes := "", addedDate := "d2" }] := by
  exact merge_idempotent _ _ (by decide) (by decide)

theorem findIdx?_aux {α : Type} {p : α → Bool} :
    ∀ (l : List α) (st j : Nat), List.findIdx? p l st = some j →
      st ≤ j ∧ ∃ a, l[j - st]? = some a ∧ p a = true := by
  intro l
  induction l with
  | nil =>
    intro st j h
    simp [List.findIdx?] at h
  | cons x t ih =>
    intro st j h
    rw [List.findIdx?_cons] at h
    by_cases hx : p x = true
    · rw [if_pos hx] at h
      have : st = j := Option.some.inj h
      subst this
      exact ⟨le_refl _, x, by simp, hx⟩
    · rw [if_neg hx] at h
      obtain ⟨hle, a, ha, hpa⟩ := ih (st + 1) j h
      refine ⟨by omega, a, ?_, hpa⟩
      have : j - st = (j - (st + 1)) + 1 := by omega
      rw [this, List.getElem?_cons_succ]
      exact ha

theorem findIdx?_found {α : Type} {p : α → Bool} {l : List α} {i : Nat}
    (h : l.findIdx? p = some i) : ∃ a, l[i]? = some a ∧ p a = true := by
  obtain ⟨-, a, ha, hpa⟩ := findIdx?_aux l 0 i h
  exact ⟨a, by simpa using ha, hpa⟩

theorem mergeInto_starred (p : Player) (r : RPlayer) :
    (mergeInto p r).starred = p.starred := by
  unfold mergeInto assignFields
  split <;> rfl

theorem foldl_mergeInto_starred (l : List RPlayer) (p : Player) :
    (l.foldl mergeInto p).starred = p.starred := by
  induction l generalizing p with
  | nil => rfl
  | cons r t ih =>
    rw [List.foldl_cons, ih, mergeInto_starred]

theorem recsAt_targets_id {ps : List Player} {s : List RPlayer} {k : Nat}
    {p : Player} (hk : ps[k]? = some p) :
    ∀ r ∈ recsAt (ps.map (·.id)) s k, r.id = p.id := by
  intro r hr
  obtain ⟨-, hc⟩ := List.mem_filter.mp hr
  simp only [Bool.and_eq_true] at hc
  have hli : lastIdxOf (ps.map (·.id)) r.id = some k := by
    simpa using hc.2
  have hg := lastIdxOf_getElem hli
  rw [List.getElem?_map, hk] at hg
  exact (Option.some.inj hg).symm

theorem merge_frame_starred (ps : List Player) (s : List RPlayer)
    (i : Nat) (p : Player) (hp : ps[i]? = some p) :
    ∃ q, (mergeSupabaseData ps s)[i]? = some q ∧
      q.starred = p.starred ∧ q.id = p.id := by
  have hi : i < ps.length := (List.getElem?_eq_some.mp hp).1
  have hup : (updAll (ps.map (·.id)) s ps 0).length = ps.length :=
    updAll_length _ _ _ _
  rw [mergeSupabaseData_eq, List.getElem?_append, if_pos (by rw [hup]; exact hi),
    updAll_getElem?, hp]
  refine ⟨_, rfl, ?_, ?_⟩
  · simpa [mergedAt] using foldl_mergeInto_starred _ p
  · simpa [mergedAt] using foldl_mergeInto_id (by simpa using recsAt_targets_id hp)

theorem rtUpdate_frame_starred (ps : List Player) (row : RawRow) (now : String)
    (i : Nat) (p : Player) (hp : ps[i]? = some p) :
    ∃ q, ((handleRealtimeUpdate ps row now).1)[i]? = some q ∧
      q.starred = p.starred ∧ q.id = p.id := by
  simp only [handleRealtimeUpdate]
  cases hf : ps.findIdx? (fun q => q.id = (convertRow row now).id) with
  | none => exact ⟨p, hp, rfl, rfl⟩
  | some j =>
    cases hgj : ps[j]? with
    | none =>
      simp only [hgj]
      exact ⟨p, hp, rfl, rfl⟩
    | some pj =>
      simp only [hgj]
      by_cases heq : fieldsEq pj (convertRow row now) = true
      · simp only [heq, if_true]
        exact ⟨p, hp, rfl, rfl⟩
      · rw [if_neg heq]
        obtain ⟨a, haj, hpa⟩ := findIdx?_found hf
        rw [hgj] at haj
        have hapj : pj = a := Option.some.inj haj
        subst hapj
        have hids : pj.id = (convertRow row now).id := by simpa using hpa
        by_cases hij : i = j
        · subst hij
          have hpp : p = pj := by
            rw [hp] at hgj
            exact Option.some.inj hgj
          subst hpp
          refine ⟨assignFields p (convertRow row now), ?_, rfl, ?_⟩
          · show (ps.set i (assignFields p (convertRow row now)))[i]? =
              some (assignFields p (convertRow row now))
            rw [List.getElem?_set_self']
            simp [List.getElem?_eq_getElem (List.getElem?_eq_some.mp hp).1]
          · simp only [assignFields]
            exact hids.symm
        · refine ⟨p, ?_, rfl, rfl⟩
          show (ps.set j (assignFields pj (convertRow row now)))[i]? = some p
          rw [List.getElem?_set_ne (fun h => hij h.symm)]
          exact hp

/-- Operations consisting of a bulk remote merge or a real-time update
event. -/
def isMergeOrUpdate : Op → Bool
  | .merge _ => true
  | .rtUpdate .. => true
  | _ => false

/-- C10: neither bulk merge nor real-time update events carry a
`starred` key in the converted remote record, so a locally set star
survives any sequence of merges and update events; the player's
identifier is preserved as well. -/
theorem starred_survives_merge_and_update (ops : List Op)
    (h : ∀ op ∈ ops, isMergeOrUpdate op = true)
    (ps : List Player) (i : Nat) (p : Player) (hp : ps[i]? = some p) :
    ∃ q, (ops.foldl applyOp ps)[i]? = some q ∧
      q.starred = p.starred ∧ q.id = p.id := by
  induction ops generalizing ps i p with
  | nil => exact ⟨p, hp, rfl, rfl⟩
  | cons op rest ih =>
    rw [List.foldl_cons]
    have hop : isMergeOrUpdate op = true := h op (by simp)
    have hrest : ∀ o ∈ rest, isMergeOrUpdate o = true :=
      fun o ho => h o (by simp [ho])
    cases op with
    | merge s =>
      obtain ⟨q, hq, hstar, hid⟩ := merge_frame_starred ps s i p hp
      obtain ⟨q', hq', hstar', hid'⟩ := ih hrest _ i q hq
      exact ⟨q', hq', hstar'.trans hstar, hid'.trans hid⟩
    | rtUpdate row nw =>
      obtain ⟨q, hq, hstar, hid⟩ := rtUpdate_frame_starred ps row nw i p hp
      obtain ⟨q', hq', hstar', hid'⟩ := ih hrest _ i q hq
      exact ⟨q', hq', hstar'.trans hstar, hid'.trans hid⟩
    | add n po t no hd u nw => simp [isMergeOrUpdate] at hop
    | draft pid o no nw => simp [isMergeOrUpdate] at hop
    | undraft pid => simp [isMergeOrUpdate] at hop
    | delete pid r => simp [isMergeOrUpdate] at hop
    | rtInsert row nw => simp [isMergeOrUpdate] at hop
    | rtDelete pid => simp [isMergeOrUpdate] at hop

/-- Witness for C10: a starred player keeps its star through a concrete
merge followed by a real-time update. -/
theorem starred_survives_witness :
    ∃ q, ([Op.merge
        [{ id := "11111111-2222-3333-4444-555555555555", name := "Mike Trout",
           position := "OF", mlbTeam := "LAA", notes := "n1", fantasyOwner := "",
           drafted := false, draftNotes := "", addedDate := "d0" }],
      Op.rtUpdate
        { id := "11111111-2222-3333-4444-555555555555",
          name := some "Mike Trout", position := some "OF", team := some "LAA",
          notes := some "n2", owner_id := none, drafted := some false,
          draft_notes := none, created_at := some "d0" } "t2"].foldl applyOp
      [{ id := "11111111-2222-3333-4444-555555555555", name := "Mike Trout",
         position := "OF", mlbTeam := "LAA", notes := "", fantasyOwner := "",
         drafted := false, draftNotes := "", addedDate := "d0",
         draftedDate := none, starred := true, headshotUrl := "" }])[0]? =
      some q ∧ q.starred = true ∧
      q.id = "11111111-2222-3333-4444-555555555555" := by
  obtain ⟨q, hq, hstar, hid⟩ := starred_survives_merge_and_update
    [Op.merge
        [{ id := "11111111-2222-3333-4444-555555555555", name := "Mike Trout",
           position := "OF", mlbTeam := "LAA", notes := "n1", fantasyOwner := "",
           drafted := false, draftNotes := "", addedDate := "d0" }],
      Op.rtUpdate
        { id := "11111111-2222-3333-4444-555555555555",
          name := some "Mike Trout", position := some "OF", team := some "LAA",
          notes := some "n2", owner_id := none, drafted := some false,
          draft_notes := none, created_at := some "d0" } "t2"]
    (by decide)
    [{ id := "11111111-2222-3333-4444-555555555555", name := "Mike Trout",
       position := "OF", mlbTeam := "LAA", notes := "", fantasyOwner := "",
       drafted := false, draftNotes := "", addedDate := "d0",
       draftedDate := none, starred := true, headshotUrl := "" }] 0
    { id := "11111111-2222-3333-4444-555555555555", name := "Mike Trout",
      position := "OF", mlbTeam := "LAA", notes := "", fantasyOwner := "",
      drafted := false, draftNotes := "", addedDate := "d0",
      draftedDate := none, starred := true, headshotUrl := "" }
    (by decide)
  exact ⟨q, hq, hstar, hid⟩

/-! ## Rankings reordering -/

/-- A `player_rankings` row as held in memory (`this.rankings`): row id,
player reference, partition key and dense position.  (The row timestamp
plays no role in the ordering logic.) -/
structure Ranking where
  id : String
  player_id : String
  list_type : String
  rank_index : Nat
  deriving DecidableEq, Repr

/-- A freshly built ranking row sent to the backend by
`updateRankingsOrder` (`newRankingData`), before the database assigns a
row id. -/
structure RankRow where
  player_id : String
  list_type : String
  rank_index : Nat
  deriving DecidableEq, Repr

/-- JavaScript `String.prototype.includes`: for a non-empty needle,
`splitOn` yields more than one piece exactly when the needle occurs. -/
def strIncludes (s t : String) : Bool :=
  t == "" || (s.splitOn t).length > 1

/-- Model of `getFilteredRankings()`: the rankings surviving the search-term
filter (matched against the referenced player's name, position, team
and notes, lowercased) and the hide-drafted toggle. -/
def getFilteredRankings (players : List Player) (rankings : List Ranking)
    (searchTerm : String) (hideDrafted : Bool) : List Ranking :=
  let f1 :=
    if searchTerm ≠ "" then
      rankings.filter (fun rk =>
        match players.find? (fun p => p.id = rk.player_id) with
        | some p =>
          strIncludes p.name.toLower searchTerm.toLower ||
          strIncludes p.position.toLower searchTerm.toLower ||
          strIncludes p.mlbTeam.toLower searchTerm.toLower ||
          strIncludes p.notes.toLower searchTerm.toLower
        | none => false)
    else rankings
  if hideDrafted then
    f1.filter (fun rk =>
      match players.find? (fun p => p.id = rk.player_id) with
      | some p => !p.drafted
      | none => false)
  else f1

/-- The dense re-indexing of `updateRankingsOrder`: row `k` of the final
order receives `rank_index = k + 1` (`index + 1` over the mapped
array). -/
def assignRanks (listType : String) : List Ranking → Nat → List RankRow
  | [], _ => []
  | r :: t, n =>
    { player_id := r.player_id, list_type := listType, rank_index := n } ::
      assignRanks listType t (n + 1)

/-- The local reordering computation of `updateRankingsOrder(newOrder)`:
resolve the dragged identifiers against the filtered view, append the
same-type entries that are neither re-ranked by `player_id` nor part of
the filtered view, and re-index densely from 1.  Returns `none` on the
two early-return paths (`!newOrder.length`, no resolvable entry). -/
def updateRankingsOrder (rankings filtered : List Ranking) (listType : String)
    (newOrder : List String) : Option (List RankRow) :=
  if newOrder.isEmpty then none
  else
    let reordered := newOrder.filterMap (fun i => filtered.find? (fun r => r.id = i))
    if reordered.isEmpty then none
    else
      let allForType := rankings.filter (fun r => r.list_type == listType)
      let nonFiltered := allForType.filter (fun r =>
        !((reordered.map (·.player_id)).contains r.player_id) &&
        !(filtered.any (fun fr => fr.id == r.id)))
      some (assignRanks listType (reordered ++ nonFiltered) 1)

theorem eq_of_map_nodup {α β : Type} {f : α → β} {l : List α}
    (h : (l.map f).Nodup) {a b : α} (ha : a ∈ l) (hb : b ∈ l)
    (hf : f a = f b) : a = b := by
  have hpw : l.Pairwise (fun a b => f a ≠ f b) := List.pairwise_map.mp h
  clear h
  induction l with
  | nil => cases ha
  | cons x t ih =>
    rcases List.pairwise_cons.mp hpw with ⟨hx, ht⟩
    rcases List.mem_cons.mp ha with rfl | hat
    · rcases List.mem_cons.mp hb with rfl | hbt
      · rfl
      · exact absurd hf (hx b hbt)
    · rcases List.mem_cons.mp hb with rfl | hbt
      · exact absurd hf.symm (hx a hat)
      · exact ih hat hbt ht

theorem assignRanks_length (lt : String) (l : List Ranking) (n : Nat) :
    (assignRanks lt l n).length = l.length := by
  induction l generalizing n with
  | nil => rfl
  | cons r t ih => simp [assignRanks, ih]

theorem assignRanks_map_rank (lt : String) (l : List Ranking) (n : Nat) :
    (assignRanks lt l n).map (·.rank_index) = List.range' n l.length := by
  induction l generalizing n with
  | nil => rfl
  | cons r t ih =>
    rw [List.length_cons, List.range'_succ]
    simp [assignRanks, ih]

theorem assignRanks_map_pid (lt : String) (l : List Ranking) (n : Nat) :
    (assignRanks lt l n).map (·.player_id) = l.map (·.player_id) := by
  induction l generalizing n with
  | nil => rfl
  | cons r t ih => simp [assignRanks, ih]

theorem length_filter_not {α : Type} (l : List α) (p : α → Bool) :
    (l.filter p).length + (l.filter (fun a => !(p a))).length = l.length := by
  induction l with
  | nil => rfl
  | cons a t ih =>
    cases h : p a <;> simp [List.filter_cons, h] <;> omega

theorem reordered_mem {F : List Ranking} {no : List String} {q : Ranking}
    (hq : q ∈ no.filterMap (fun x => F.find? (fun r => r.id = x))) : q ∈ F := by
  obtain ⟨x, -, hf⟩ := List.mem_filterMap.mp hq
  exact List.mem_of_find?_eq_some hf

theorem reordered_map_id (F : List Ranking) :
    ∀ (no : List String), (∀ x ∈ no, x ∈ F.map (·.id)) →
      (no.filterMap (fun x => F.find? (fun r => r.id = x))).map (·.id) = no := by
  intro no
  induction no with
  | nil => intro _; rfl
  | cons x t ih =>
    intro h
    have hx : x ∈ F.map (·.id) := h x (by simp)
    obtain ⟨r, hrF, hrid⟩ := List.mem_map.mp hx
    have hfind : ∃ a, F.find? (fun r => r.id = x) = some a := by
      rw [← Option.isSome_iff_exists, List.find?_isSome]
      exact ⟨r, hrF, by simp [hrid]⟩
    obtain ⟨a, ha⟩ := hfind
    have hpa : a.id = x := by simpa using List.find?_some ha
    rw [List.filterMap_cons, ha]
    simp [hpa, ih (fun y hy => h y (List.mem_cons_of_mem x hy))]

/-- C3 amended: rankings reorder contiguity holds when the dragged order
covers **all** the visible (filtered) entries (the drag gesture reorders
the whole rendered list): for a partition of N same-type entries with
distinct row ids and distinct player references, the computed rows are
the reordered visible entries first, in the new order, then the
non-visible entries in prior relative order, re-indexed exactly
`1, …, N`.  (A strict subset drops the untouched visible entries — see
the counterexample.) -/
theorem rankings_reorder_contiguity
    (players : List Player) (rankings : List Ranking) (listType : String)
    (searchTerm : String) (hideDrafted : Bool) (newOrder : List String)
    (F : List Ranking)
    (hF : F = getFilteredRankings players rankings searchTerm hideDrafted)
    (hlt : ∀ r ∈ rankings, r.list_type = listType)
    (hid : (rankings.map (·.id)).Nodup)
    (hpid : (rankings.map (·.player_id)).Nodup)
    (hperm : newOrder.Perm (F.map (·.id)))
    (hne : newOrder ≠ []) :
    ∃ rows, updateRankingsOrder rankings F listType newOrder = some rows ∧
      rows.map (·.rank_index) = List.range' 1 rankings.length ∧
      rows.map (·.player_id) =
        (newOrder.filterMap (fun x => F.find? (fun r => r.id = x))).map (·.player_id) ++
        (rankings.filter (fun r => !(F.any (fun fr => fr.id == r.id)))).map (·.player_id) := by
  obtain ⟨P, hFP⟩ : ∃ P, F = rankings.filter P := by
    rw [hF]
    simp only [getFilteredRankings]
    by_cases h1 : searchTerm ≠ ""
    · by_cases h2 : hideDrafted = true
      · simp only [if_pos h1, if_pos h2]
        exact ⟨_, List.filter_filter _ _⟩
      · simp only [if_pos h1, if_neg h2]
        exact ⟨_, rfl⟩
    · by_cases h2 : hideDrafted = true
      · simp only [if_neg h1, if_pos h2]
        exact ⟨_, rfl⟩
      · simp only [if_neg h1, if_neg h2]
        exact ⟨fun _ => true, (List.filter_true rankings).symm⟩
  have hFsubl : List.Sublist F rankings := by
    rw [hFP]
    exact List.filter_sublist rankings
  have hmemF : ∀ r, r ∈ F ↔ (r ∈ rankings ∧ P r = true) := by
    intro r
    rw [hFP]
    exact List.mem_filter
  have hRid : (newOrder.filterMap (fun x => F.find? (fun r => r.id = x))).map (·.id) =
      newOrder :=
    reordered_map_id F newOrder (fun x hx => hperm.mem_iff.mp hx)
  have hRlen : (newOrder.filterMap (fun x => F.find? (fun r => r.id = x))).length =
      F.length := by
    have hlen := congrArg List.length hRid
    rw [List.length_map] at hlen
    rw [hlen, hperm.length_eq, List.length_map]
  have hanyP : ∀ r ∈ rankings, (F.any (fun fr => fr.id == r.id)) = P r := by
    intro r hr
    cases hany : F.any (fun fr => fr.id == r.id) with
    | true =>
      obtain ⟨fr, hfrF, hfr⟩ := List.any_eq_true.mp hany
      have hfr_id : fr.id = r.id := by simpa using hfr
      have hfrr : fr = r := eq_of_map_nodup hid (hFsubl.subset hfrF) hr hfr_id
      subst hfrr
      exact (((hmemF fr).mp hfrF).2).symm
    | false =>
      cases hPr : P r with
      | false => rfl
      | true =>
        have hrF : r ∈ F := (hmemF r).mpr ⟨hr, hPr⟩
        have hany2 : F.any (fun fr => fr.id == r.id) = true :=
          List.any_eq_true.mpr ⟨r, hrF, by simp⟩
        rw [hany] at hany2
        cases hany2
  have hnonF : (rankings.filter (fun r => r.list_type == listType)).filter
      (fun r =>
        !(((newOrder.filterMap (fun x => F.find? (fun r => r.id = x))).map
            (·.player_id)).contains r.player_id) &&
        !(F.any (fun fr => fr.id == r.id))) =
      rankings.filter (fun r => !(P r)) := by
    have hall : rankings.filter (fun r => r.list_type == listType) = rankings := by
      rw [List.filter_eq_self]
      intro a ha
      simp [hlt a ha]
    rw [hall]
    apply List.filter_congr
    intro r hr
    rw [hanyP r hr]
    cases hPr : P r with
    | true => simp
    | false =>
      simp only [Bool.not_false, Bool.and_true]
      cases hc : ((newOrder.filterMap (fun x => F.find? (fun r => r.id = x))).map
          (·.player_id)).contains r.player_id with
      | false => rfl
      | true =>
        have hmemc : r.player_id ∈
            (newOrder.filterMap (fun x => F.find? (fun r => r.id = x))).map
              (·.player_id) := by
          simpa using hc
        obtain ⟨q, hqR, hqpid⟩ := List.mem_map.mp hmemc
        have hqF : q ∈ F := reordered_mem hqR
        have hqr : q = r :=
          eq_of_map_nodup hpid (hFsubl.subset hqF) hr hqpid
        subst hqr
        have : P q = true := ((hmemF q).mp hqF).2
        rw [hPr] at this
        cases this
  have hRne : newOrder.filterMap (fun x => F.find? (fun r => r.id = x)) ≠ [] := by
    intro h0
    rw [h0] at hRid
    exact hne (by simpa using hRid.symm)
  have h1 : newOrder.isEmpty = false := by
    simpa [List.isEmpty_iff] using hne
  have h2 : (newOrder.filterMap (fun x => F.find? (fun r => r.id = x))).isEmpty = false := by
    simpa [List.isEmpty_iff] using hRne
  refine ⟨assignRanks listType
      ((newOrder.filterMap (fun x => F.find? (fun r => r.id = x))) ++
        rankings.filter (fun r => !(P r))) 1, ?_, ?_, ?_⟩
  · simp only [updateRankingsOrder, h1, h2, Bool.false_eq_true, if_false, hnonF]
  · rw [assignRanks_map_rank]
    congr 1
    rw [List.length_append, hRlen]
    have htot := length_filter_not rankings P
    have hFlen : F.length = (rankings.filter P).length := by rw [hFP]
    omega
  · rw [assignRanks_map_pid, List.map_append]
    have hflip : rankings.filter (fun r => !(F.any (fun fr => fr.id == r.id))) =
        rankings.filter (fun r => !(P r)) :=
      List.filter_congr (fun r hr => by rw [hanyP r hr])
    rw [hflip]

/-- C3 counterexample: the claim as stated quantifies over permutations
of **any subset** of the visible identifiers.  For two visible
`overall` entries and a reorder call carrying only the subset `["a"]`
(a permutation of a subset of the visible ids `["a", "b"]`), the
computed rows drop the untouched visible entry: the stored rank indices
are `[1]`, not `{1, 2}`. -/
theorem rankings_reorder_subset_cex :
    List.Sublist ["a"]
      ((getFilteredRankings []
        [{ id := "a", player_id := "p1", list_type := "overall", rank_index := 1 },
         { id := "b", player_id := "p2", list_type := "overall", rank_index := 2 }]
        "" false).map (·.id)) ∧
    updateRankingsOrder
      [{ id := "a", player_id := "p1", list_type := "overall", rank_index := 1 },
       { id := "b", player_id := "p2", list_type := "overall", rank_index := 2 }]
      (getFilteredRankings []
        [{ id := "a", player_id := "p1", list_type := "overall", rank_index := 1 },
         { id := "b", player_id := "p2", list_type := "overall", rank_index := 2 }]
        "" false)
      "overall" ["a"] =
      some [{ player_id := "p1", list_type := "overall", rank_index := 1 }] ∧
    [1] ≠ List.range' 1 2 := by
  refine ⟨by decide, by decide, by decide⟩

/-- Witness for the amended C3 at a concrete two-entry partition and a
full-visible-set permutation. -/
theorem rankings_reorder_contiguity_witness :
    ∃ rows, updateRankingsOrder
      [{ id := "a", player_id := "p1", list_type := "overall", rank_index := 1 },
       { id := "b", player_id := "p2", list_type := "overall", rank_index := 2 }]
      (getFilteredRankings []
        [{ id := "a", player_id := "p1", list_type := "overall", rank_index := 1 },
         { id := "b", player_id := "p2", list_type := "overall", rank_index := 2 }]
        "" false)
      "overall" ["b", "a"] = some rows ∧
      rows.map (·.rank_index) = List.range' 1 2 ∧
      rows.map (·.player_id) =
        ((["b", "a"] : List String).filterMap (fun x =>
          (getFilteredRankings []
            [{ id := "a", player_id := "p1", list_type := "overall", rank_index := 1 },
             { id := "b", player_id := "p2", list_type := "overall", rank_index := 2 }]
            "" false).find? (fun r => r.id = x))).map (·.player_id) ++
        (([{ id := "a", player_id := "p1", list_type := "overall", rank_index := 1 },
           { id := "b", player_id := "p2", list_type := "overall", rank_index := 2 }] :
          List Ranking).filter
          (fun r => !((getFilteredRankings []
            [{ id := "a", player_id := "p1", list_type := "overall", rank_index := 1 },
             { id := "b", player_id := "p2", list_type := "overall", rank_index := 2 }]
            "" false).any (fun fr => fr.id == r.id)))).map (·.player_id) := by
  exact rankings_reorder_contiguity []
    [{ id := "a", player_id := "p1", list_type := "overall", rank_index := 1 },
     { id := "b", player_id := "p2", list_type := "overall", rank_index := 2 }]
    "overall" "" false ["b", "a"]
    (getFilteredRankings []
      [{ id := "a", player_id := "p1", list_type := "overall", rank_index := 1 },
       { id := "b", player_id := "p2", list_type := "overall", rank_index := 2 }]
      "" false)
    rfl (by decide) (by decide) (by decide) (by decide) (by decide)

/-! ## Remote-failure behaviour and outbound backup -/

/-- The user-facing status channel values relevant here. -/
inductive SyncStatus where
  | success (msg : String)
  | error (msg : String)
  deriving DecidableEq, Repr

/-- Model of `loadFromSupabase()` around the remote query: a query error (thrown
and caught) reports an error status and touches nothing; a non-empty
result is converted and merged; an empty result reports "no data" and
touches nothing. -/
def loadFromSupabase (ps : List Player) (resp : Except Unit (List RawRow))
    (now : String) : List Player × SyncStatus :=
  match resp with
  | .error _ => (ps, .error "Error loading from Supabase")
  | .ok data =>
    if data.length > 0 then
      (mergeSupabaseData ps (data.map (fun row => convertRow row now)),
        .success ("Loaded " ++ toString data.length ++ " players from Supabase"))
    else
      (ps, .error "No players found in Supabase")

/-- Model of `updateRankingsOrder` around its two remote calls: an empty drag
order returns silently; an unresolvable order reports an error; a failed
delete aborts before the insert; a failed insert reports an error; only
a successful insert replaces the local rankings (with the returned rows,
sorted by `rank_index`). -/
def updateRankingsOrderRemote (rankings filtered : List Ranking)
    (listType : String) (newOrder : List String)
    (deleteRes : Except Unit Unit) (insertRes : Except Unit (List Ranking)) :
    List Ranking × Option SyncStatus :=
  if newOrder.isEmpty then (rankings, none)
  else
    match updateRankingsOrder rankings filtered listType newOrder with
    | none => (rankings, some (.error "No rankings found to reorder"))
    | some _ =>
      match deleteRes with
      | .error _ => (rankings, some (.error "Error saving rankings order"))
      | .ok _ =>
        match insertRes with
        | .error _ => (rankings, some (.error "Error saving rankings order"))
        | .ok data =>
          (data.mergeSort (fun a b => a.rank_index ≤ b.rank_index),
            some (.success "Rankings order saved successfully"))

/-- C8 counterexample: the claim says a failing remote call leaves the
prior in-memory player collection unmodified, with no local mutation
before the failure.  `deletePlayer` removes the player locally *before*
the remote delete; with a failing remote call the collection is still
changed. -/
theorem remote_failure_cex :
    deletePlayer
      [{ id := "11111111-2222-3333-4444-555555555555", name := "Mike Trout",
         position := "OF", mlbTeam := "LAA", notes := "", fantasyOwner := "",
         drafted := false, draftNotes := "", addedDate := "d0",
         draftedDate := none, starred := false, headshotUrl := "" }]
      "11111111-2222-3333-4444-555555555555" (.error ()) = [] ∧
    ([] : List Player) ≠
      [{ id := "11111111-2222-3333-4444-555555555555", name := "Mike Trout",
         position := "OF", mlbTeam := "LAA", notes := "", fantasyOwner := "",
         drafted := false, draftNotes := "", addedDate := "d0",
         draftedDate := none, starred := false, headshotUrl := "" }] := by
  exact ⟨by decide, by decide⟩

/-- C8 amended: on a failing remote call, `loadFromSupabase` reports an
error status and leaves the collection unmodified, and a failing
rankings delete aborts the replacement leaving the rankings unmodified;
`deletePlayer`, however, removes the player locally before the remote
call, and the removal stands whether the remote delete succeeds or fails
(the failure is only logged). -/
theorem remote_failure_effects
    (ps : List Player) (rankings filtered : List Ranking) (listType : String)
    (newOrder : List String) (now : String) (pid : String)
    (insertRes : Except Unit (List Ranking)) :
    loadFromSupabase ps (.error ()) now =
      (ps, .error "Error loading from Supabase") ∧
    (updateRankingsOrderRemote rankings filtered listType newOrder
      (.error ()) insertRes).1 = rankings ∧
    deletePlayer ps pid (.error ()) = deletePlayer ps pid (.ok ()) := by
  refine ⟨rfl, ?_, ?_⟩
  · unfold updateRankingsOrderRemote
    by_cases hno : newOrder.isEmpty = true
    · rw [if_pos hno]
    · rw [if_neg hno]
      cases hres : updateRankingsOrder rankings filtered listType newOrder with
      | none => rfl
      | some rows => rfl
  · unfold deletePlayer
    cases ps.find? (fun p => p.id = pid) with
    | none => rfl
    | some _ => rfl

/-- The owner-reference validity test of `backupToSupabase`
(`isValidOwnerId`): length at least 20, a hyphen, and not matching
`/^[a-zA-Z]+$/`. -/
def isValidOwnerId (o : String) : Bool :=
  (decide (20 ≤ o.data.length)) && o.data.contains '-' &&
    !(!o.data.isEmpty && o.data.all (fun c => c.isAlpha))

/-- JavaScript `x || null` for a string field. -/
def jsOrNull (s : String) : Option String :=
  if s = "" then none else some s

/-- A row of the remote `players` table as sent by the backup. -/
structure SupaRow where
  id : String
  name : String
  position : Option String
  team : Option String
  notes : Option String
  owner_id : Option String
  drafted : Bool
  draft_notes : Option String
  updated_at : String
  deriving DecidableEq, Repr

/-- One iteration of the `this.players.map` in `backupToSupabase`: fix
an invalid player id with a fresh identifier (mutating the local player
object too), send the owner reference only when it passes the validity
test (null otherwise), and null out empty free-text columns. -/
def backupRow (p : Player) (uuid now : String) : Player × SupaRow :=
  let pid := if isInvalidId p.id then uuid else p.id
  let ownerId : Option String :=
    if p.fantasyOwner ≠ "" then
      if isValidOwnerId p.fantasyOwner then some p.fantasyOwner else none
    else none
  ({ p with id := pid },
    { id := pid, name := p.name, position := jsOrNull p.position,
      team := jsOrNull p.mlbTeam, notes := jsOrNull p.notes,
      owner_id := ownerId, drafted := p.drafted,
      draft_notes := jsOrNull p.draftNotes, updated_at := now })

/-- Model of `backupToSupabase()`: the updated local collection and the row list
handed to the per-player upsert loop (each row is sent regardless of
other rows' failures).  `fresh` is the `crypto.randomUUID()` stream. -/
def backupToSupabase : List Player → (Nat → String) → String → Nat →
    List Player × List SupaRow
  | [], _, _, _ => ([], [])
  | p :: ps, fresh, now, n =>
    let pr := backupRow p (fresh n) now
    let rest := backupToSupabase ps fresh now (n + 1)
    (pr.1 :: rest.1, pr.2 :: rest.2)

theorem string_eq_empty_of_data {o : String} (h : o.data = []) : o = "" := by
  cases o with
  | mk d =>
    simp at h
    subst h
    rfl

theorem owner_check_eq_classifier (o : String) :
    (if o ≠ "" then
      (if isValidOwnerId o then some o else none)
    else none) = (if isInvalidId o then none else some o) := by
  by_cases h0 : o = ""
  · subst h0
    decide
  · rw [if_pos h0]
    have hE : o.data.isEmpty = false := by
      cases he : o.data.isEmpty with
      | false => rfl
      | true =>
        have : o.data = [] := by simpa [List.isEmpty_iff] using he
        exact absurd (string_eq_empty_of_data this) h0
    have hiff : isValidOwnerId o = true ↔ isInvalidId o = false := by
      rw [invalid_eq_false_iff]
      have hne : o.data ≠ [] := fun hn => h0 (string_eq_empty_of_data hn)
      unfold isValidOwnerId
      rw [hE]
      by_cases hl : 20 ≤ o.data.length
      all_goals have hl' : (20 ≤ o.length) = (20 ≤ o.data.length) := rfl
      · cases hc : o.data.contains '-' with
        | true =>
          cases ha : o.data.all (fun c => c.isAlpha) with
          | true => simp [hl, hl', hc, ha, hne]
          | false => simp [hl, hl', hc, ha, hne]
        | false => simp [hl, hl', hc]
      · simp [hl, hl']
        constructor
        · rintro ⟨⟨h1, -⟩, -⟩
          exact absurd h1 hl
        · rintro ⟨-, h1, -⟩
          exact absurd h1 hl
    by_cases hv : isValidOwnerId o = true
    · rw [if_pos hv, hiff.mp hv]
      simp
    · rw [if_neg hv]
      have : isInvalidId o = true := by
        cases hI : isInvalidId o with
        | true => rfl
        | false => exact absurd (hiff.mpr hI) hv
      rw [if_pos (by simp [this])]

/-- C9: every player row handed to the remote upsert has an identifier
passing the validity classifier (an invalid local id is replaced with a
fresh canonical identifier, and the local player record is updated to
the new id), and carries `owner_id` equal to the player's
`fantasyOwner` exactly when that value passes the classifier, null
otherwise.  (`autoSyncToSupabase`, which skips the owner check, is dead
code: all its call sites are commented out.) -/
theorem backup_outbound_normalization (fresh : Nat → String) (now : String)
    (hfresh : ∀ n, isCanonicalUUID (fresh n) = true) :
    ∀ (ps : List Player) (n i : Nat) (p : Player), ps[i]? = some p →
      ∃ row, (backupToSupabase ps fresh now n).1[i]? = some { p with id := row.id } ∧
        (backupToSupabase ps fresh now n).2[i]? = some row ∧
        isInvalidId row.id = false ∧
        row.owner_id = (if isInvalidId p.fantasyOwner then none
                        else some p.fantasyOwner) := by
  intro ps
  induction ps with
  | nil =>
    intro n i p hp
    simp at hp
  | cons q t ih =>
    intro n i p hp
    cases i with
    | zero =>
      have hq : q = p := by simpa using hp
      subst hq
      refine ⟨(backupRow q (fresh n) now).2, ?_, ?_, ?_, ?_⟩
      · simp [backupToSupabase, backupRow]
      · simp [backupToSupabase]
      · have hrid : (backupRow q (fresh n) now).2.id =
            (if isInvalidId q.id then fresh n else q.id) := by
          simp [backupRow]
        rw [hrid]
        cases hI : isInvalidId q.id with
        | true =>
          rw [if_pos (by simp [hI])]
          exact canonicalUUID_valid _ (hfresh n)
        | false =>
          rw [if_neg (by simp [hI])]
          exact hI
      · have hown : (backupRow q (fresh n) now).2.owner_id =
            (if q.fantasyOwner ≠ "" then
              (if isValidOwnerId q.fantasyOwner then some q.fantasyOwner else none)
            else none) := by
          simp [backupRow]
        rw [hown]
        exact owner_check_eq_classifier q.fantasyOwner
    | succ j =>
      simp only [List.getElem?_cons_succ] at hp
      obtain ⟨row, h1, h2, h3, h4⟩ := ih (n + 1) j p hp
      refine ⟨row, ?_, ?_, h3, h4⟩
      · simpa [backupToSupabase] using h1
      · simpa [backupToSupabase] using h2

/-- Witness for C9: a player with a legacy team-name id and a raw
team-name owner gets a fresh canonical id and a null owner reference. -/
theorem backup_outbound_normalization_witness :
    ∃ row, (backupToSupabase
        [{ id := "mets", name := "Pete Alonso", position := "1B",
           mlbTeam := "NYM", notes := "", fantasyOwner := "Yankees",
           drafted := true, draftNotes := "", addedDate := "d0",
           draftedDate := some "d1", starred := false, headshotUrl := "" }]
        (fun _ => "8f14e45f-ceea-467f-a1d4-91b862439e0a") "t0" 0).1[0]? =
        some { id := row.id, name := "Pete Alonso", position := "1B",
               mlbTeam := "NYM", notes := "", fantasyOwner := "Yankees",
               drafted := true, draftNotes := "", addedDate := "d0",
               draftedDate := some "d1", starred := false, headshotUrl := "" } ∧
      (backupToSupabase
        [{ id := "mets", name := "Pete Alonso", position := "1B",
           mlbTeam := "NYM", notes := "", fantasyOwner := "Yankees",
           drafted := true, draftNotes := "", addedDate := "d0",
           draftedDate := some "d1", starred := false, headshotUrl := "" }]
        (fun _ => "8f14e45f-ceea-467f-a1d4-91b862439e0a") "t0" 0).2[0]? = some row ∧
      isInvalidId row.id = false ∧
      row.owner_id = (if isInvalidId "Yankees" then none else some "Yankees") := by
  obtain ⟨row, h1, h2, h3, h4⟩ := backup_outbound_normalization
    (fun _ => "8f14e45f-ceea-467f-a1d4-91b862439e0a") "t0"
    (by
      intro n
      show isCanonicalUUID "8f14e45f-ceea-467f-a1d4-91b862439e0a" = true
      decide)
    [{ id := "mets", name := "Pete Alonso", position := "1B",
       mlbTeam := "NYM", notes := "", fantasyOwner := "Yankees",
       drafted := true, draftNotes := "", addedDate := "d0",
       draftedDate := some "d1", starred := false, headshotUrl := "" }] 0 0
    { id := "mets", name := "Pete Alonso", position := "1B",
      mlbTeam := "NYM", notes := "", fantasyOwner := "Yankees",
      drafted := true, draftNotes := "", addedDate := "d0",
      draftedDate := some "d1", starred := false, headshotUrl := "" }
    (by decide)
  exact ⟨row, h1, h2, h3, h4⟩

end DraftBoard
